import Mathlib

/-!
# DomOS kernel bootstrap (`src/kernel/kernel.c`)

A shallow embedding of the memory bootstrap of the DomOS kernel:

* `itoa`, the integer formatter used by every diagnostic;
* the `page_directory_entry` bit-field overlay;
* `mboot_data`, the scan of the boot loader's memory map;
* `kernel_main`, which hands the frame cursor to `setup_paging`;
* `remap_VGA`, the post-paging dump of the page directory and page table.

Machine integers are `Nat`/`Int` with explicit wrap-around.  Loops whose trip count
is not fixed by the source take a `fuel` argument and return `none` when it runs out;
`none` is also the result of a trapping operation (division by zero).
-/

namespace DomOS

/-! ## Machine arithmetic -/

/-- Value of a C `int` after wrap-around to 32-bit two's complement. -/
def wrap_int (z : Int) : Int := (z + 2147483648) % 4294967296 - 2147483648

/-- Value stored in a `char` (signed, 8 bits on this target). -/
def wrap_char (z : Int) : Int := (z + 128) % 256 - 128

/-- Value of a `uint32_t` / `unsigned int` / 32-bit pointer after wrap-around. -/
def wrap_u32 (n : Nat) : Nat := n % 4294967296

/-- A C `for` loop with a counter: runs `body j` for `j = lo, lo+1, …, lo+n-1`. -/
def for_loop {σ : Type} (body : Nat → σ → σ) : Nat → Nat → σ → σ
  | _, 0, s => s
  | j, n + 1, s => for_loop body (j + 1) n (body j s)

/-- The C string held in a `char` array of `cap` elements: the characters before the first NUL. -/
def c_string (cap : Nat) (buf : Nat → Int) : List Int :=
  ((List.range cap).map buf).takeWhile (fun c => decide (c ≠ 0))

/-! ## `itoa` (kernel.c, lines 50-77) -/

/-- Local variables of `itoa` that live across the `while` loop. -/
structure itoa_state where
  value : Int
  cbase : Int
  i : Nat
  str : Nat → Int

/-- The loop `while (value > 0) { … }` of `itoa`.  `none`: out of fuel, or a division
by zero / overflowing division in the loop body. -/
def itoa_while (base : Int) : Nat → itoa_state → Option itoa_state
  | 0, _ => none
  | fuel + 1, s =>
    if 0 < s.value then
      if s.cbase = 0 ∨ base = 0 ∨ s.cbase.tdiv base = 0 ∨ (s.cbase = -2147483648 ∧ base = -1) then
        none
      else
        let digit := wrap_char ((s.value.tmod s.cbase).tdiv (s.cbase.tdiv base) + 48)
        let digit := if 57 < digit then wrap_char (digit + 7) else digit
        itoa_while base fuel
          { value := s.value - s.value.tmod s.cbase
            cbase := wrap_int (s.cbase * base)
            i := s.i + 1
            str := Function.update s.str s.i digit }
    else
      some s

/-- The function `char* itoa(int value, char* str, int base)`; the result is the contents
of `str` on return.  `fstring` is the initial (indeterminate) content of the stack area the
variable-length array `fstring[i]` occupies; the second copy loop reads `fstring[i]`, one
element past the array. -/
def itoa (fuel : Nat) (value : Int) (str : Nat → Int) (base : Int) (fstring : Nat → Int) :
    Option (Nat → Int) :=
  match itoa_while base fuel { value := value, cbase := base, i := 0, str := str } with
  | none => none
  | some s =>
    let i := s.i
    let fstring := for_loop (fun j f => Function.update f (j - 1) (s.str (i - j))) 1 i fstring
    let str := for_loop (fun j t => Function.update t j (fstring j)) 0 (i + 1) s.str
    if i = 0 then
      some (Function.update (Function.update str 0 48) (i + 1) 0)
    else
      some (Function.update str i 0)

/-! ## Console interface

The text console is an output sink; its calls are recorded in the order they are made. -/

/-- The enumeration `vga_color`. -/
inductive vga_color
  | VGA_COLOR_BLACK | VGA_COLOR_BLUE | VGA_COLOR_GREEN | VGA_COLOR_CYAN
  | VGA_COLOR_RED | VGA_COLOR_MAGENTA | VGA_COLOR_BROWN | VGA_COLOR_LIGHT_GREY
  | VGA_COLOR_DARK_GREY | VGA_COLOR_LIGHT_BLUE | VGA_COLOR_LIGHT_GREEN | VGA_COLOR_LIGHT_CYAN
  | VGA_COLOR_LIGHT_RED | VGA_COLOR_LIGHT_MAGENTA | VGA_COLOR_LIGHT_BROWN | VGA_COLOR_WHITE
  deriving DecidableEq, Repr

open vga_color

/-- Numeric value of a `vga_color` enumerator. -/
def vga_color.val : vga_color → Nat
  | VGA_COLOR_BLACK => 0 | VGA_COLOR_BLUE => 1 | VGA_COLOR_GREEN => 2 | VGA_COLOR_CYAN => 3
  | VGA_COLOR_RED => 4 | VGA_COLOR_MAGENTA => 5 | VGA_COLOR_BROWN => 6 | VGA_COLOR_LIGHT_GREY => 7
  | VGA_COLOR_DARK_GREY => 8 | VGA_COLOR_LIGHT_BLUE => 9 | VGA_COLOR_LIGHT_GREEN => 10
  | VGA_COLOR_LIGHT_CYAN => 11 | VGA_COLOR_LIGHT_RED => 12 | VGA_COLOR_LIGHT_MAGENTA => 13
  | VGA_COLOR_LIGHT_BROWN => 14 | VGA_COLOR_WHITE => 15

/-- The function `uint8_t get_colors(vga_color background, vga_color foreground)`. -/
def get_colors (background foreground : vga_color) : Nat :=
  ((background.val <<< 4) ||| foreground.val) % 256

/-- The function `uint16_t charToEntry(char c, uint8_t color)`; `c` is sign-extended to `int`
before the bitwise or, and the result is truncated to 16 bits. -/
def charToEntry (c : Int) (color : Nat) : Nat :=
  ((color <<< 8) ||| (c % 65536).toNat) % 65536

/-- Calls that leave `kernel.c`: console output, and the page-table builder `setup_paging`
declared in `paging.h`. -/
inductive call
  | clear (backgroundColor : vga_color)
  | color_print (str : List Int) (backgroundColor foregroundColor : vga_color)
  | putchar (c : Int) (colors : Nat)
  | setup_paging (first_frame start_kernel end_kernel : Nat)
  deriving DecidableEq

/-- Characters of a string literal. -/
def lit (s : String) : List Int := s.toList.map (fun c => (c.toNat : Int))

def color_print (str : List Int) (backgroundColor foregroundColor : vga_color) : List call :=
  [call.color_print str backgroundColor foregroundColor]

def color_println (str : List Int) (backgroundColor foregroundColor : vga_color) : List call :=
  color_print str backgroundColor foregroundColor ++
    [call.putchar 10 (get_colors backgroundColor foregroundColor)]

def kernel_print (str : List Int) : List call :=
  color_print str VGA_COLOR_BLACK VGA_COLOR_WHITE

def kernel_println (str : List Int) : List call :=
  color_println str VGA_COLOR_BLACK VGA_COLOR_WHITE

def kernel_error_println (str : List Int) : List call :=
  color_println str VGA_COLOR_BLACK VGA_COLOR_LIGHT_RED

/-! ## Globals and `kernel_main` (kernel.c, lines 10-12 and 242-282) -/

/-- The file-scope pointers `end_kernel`, `end_memory`, `first_frame` (as 32-bit addresses). -/
structure globals where
  end_kernel : Nat
  end_memory : Nat
  first_frame : Nat
  deriving DecidableEq, Repr

/-- Static storage is zero-initialised. -/
def globals.init : globals := { end_kernel := 0, end_memory := 0, first_frame := 0 }

/-- The function `uint32_t kernel_main(void)`: the calls it makes, in order, and its return
value.  `start_kernel` and `end_kernel` are the addresses of the linker symbols `_start_kernel`
and `_end_kernel`; `str` and `fstring` are the initial contents of uninitialised stack
storage. -/
def kernel_main (fuel : Nat) (start_kernel end_kernel : Nat) (g : globals)
    (str fstring : Nat → Int) : Option (List call × Nat) := do
  let out :=
    [call.clear VGA_COLOR_BLACK] ++
    kernel_println (lit " ____                        _____   ____") ++
    kernel_println (lit "/\\  _`\\                     /\\  __`\\/\\  _`\\") ++
    kernel_println (lit "\\ \\ \\/\\ \\    ___     ___ ___\\ \\ \\/\\ \\ \\,\\L\\_\\") ++
    kernel_println (lit " \\ \\ \\ \\ \\  / __`\\ /' __` __`\\ \\ \\ \\ \\/_\\__ \\") ++
    kernel_println (lit "  \\ \\ \\_\\ \\/\\ \\L\\ \\/\\ \\/\\ \\/\\ \\ \\ \\_\\ \\/\\ \\L\\ \\") ++
    kernel_println (lit "   \\ \\____/\\ \\____/\\ \\_\\ \\_\\ \\_\\ \\_____\\ `\\____\\") ++
    kernel_println (lit "    \\/___/  \\/___/  \\/_/\\/_/\\/_/\\/_____/\\/_____/") ++
    kernel_print (lit "Welcome to ") ++
    color_print (lit "DomOS\n") VGA_COLOR_BLACK VGA_COLOR_LIGHT_MAGENTA ++
    kernel_error_println (lit "This is a test error print")
  let x : Int := charToEntry 72 (get_colors VGA_COLOR_BROWN VGA_COLOR_LIGHT_MAGENTA)
  let str ← itoa fuel x str 10 fstring
  let out := out ++ kernel_error_println (c_string 30 str) ++
    kernel_println (lit "Back in Kernel") ++
    kernel_println (lit "Kernel Size: ")
  let y : Nat := wrap_u32 (wrap_u32 end_kernel + 4294967296 - wrap_u32 start_kernel)
  let x : Int := wrap_int (y >>> 28 : Nat)
  let str ← itoa fuel x str 16 fstring
  let out := out ++ kernel_error_println (c_string 30 str)
  let x : Int := wrap_int (y &&& 0x0FFFFFFF : Nat)
  let str ← itoa fuel x str 16 fstring
  let out := out ++ kernel_error_println (c_string 30 str)
  some (out ++ [call.setup_paging g.first_frame start_kernel end_kernel],
        wrap_u32 g.first_frame)

/-! ## The boot memory map and `mboot_data` (kernel.c, lines 285-344) -/

/-- The record `temp_multiboot_memory_map` (one entry of the map). -/
structure temp_multiboot_memory_map where
  size : Nat
  base_addr_low : Nat
  base_addr_high : Nat
  length_low : Nat
  length_high : Nat
  type : Nat
  deriving DecidableEq, Repr

/-- Physical memory as seen by the scanner: the 32-bit word stored at a byte address. -/
abbrev memory := Nat → Nat

/-- A 32-bit load; the address is a 32-bit pointer. -/
def load (mem : memory) (a : Nat) : Nat := wrap_u32 (mem (wrap_u32 a))

/-- The entry a `temp_mmap_entry_t*` with value `p` points at: six consecutive words. -/
def entry_at (mem : memory) (p : Nat) : temp_multiboot_memory_map :=
  { size := load mem p
    base_addr_low := load mem (p + 4)
    base_addr_high := load mem (p + 8)
    length_low := load mem (p + 12)
    length_high := load mem (p + 16)
    type := load mem (p + 20) }

/-- The two fields of `multiboot_info_t` (declared in `multiboot.h`) that `mboot_data` reads. -/
structure multiboot_info where
  mmap_length : Nat
  mmap_addr : Nat
  deriving DecidableEq, Repr

/-- Local variables of `mboot_data`; `maxentry = none` is the uninitialised pointer. -/
structure scan_state where
  entry : Nat
  maxentry : Option Nat
  maxlength : Nat
  deriving DecidableEq, Repr

/-- One trip through the body of the `while` loop of `mboot_data`: the pointer is advanced
first, and the entry it then points at is examined. -/
def scan_body (mem : memory) (s : scan_state) : scan_state :=
  let entry := wrap_u32 (s.entry + (entry_at mem s.entry).size + 4)
  if (entry_at mem entry).type = 1 then
    if s.maxlength = 0 ∨ s.maxlength < (entry_at mem entry).length_low then
      { entry := entry, maxentry := some entry, maxlength := (entry_at mem entry).length_low }
    else
      { s with entry := entry }
  else
    { s with entry := entry }

/-- The loop `while ((uint32_t)entry < mbd->mmap_addr + mbd->mmap_length) { … }`. -/
def scan_while (mem : memory) (mbd : multiboot_info) : Nat → scan_state → Option scan_state
  | 0, _ => none
  | fuel + 1, s =>
    if s.entry < wrap_u32 (wrap_u32 mbd.mmap_addr + wrap_u32 mbd.mmap_length) then
      scan_while mem mbd fuel (scan_body mem s)
    else
      some s

/-- The local state on entry to the loop of `mboot_data`. -/
def scan_init (mbd : multiboot_info) : scan_state :=
  { entry := wrap_u32 mbd.mmap_addr, maxentry := none, maxlength := 0 }

/-- The function `void mboot_data(multiboot_info_t* mbd)` as a transformer of the globals.
`end_kernel` is the address of the linker symbol `_end_kernel`.  `none`: the loop ran out of
fuel (or an uninitialised `maxentry` would be dereferenced). -/
def mboot_data (fuel : Nat) (mem : memory) (mbd : multiboot_info) (end_kernel : Nat)
    (g : globals) : Option globals :=
  let g := { g with end_kernel := wrap_u32 end_kernel, first_frame := wrap_u32 end_kernel }
  match scan_while mem mbd fuel (scan_init mbd) with
  | none => none
  | some s =>
    if 0 < s.maxlength then
      match s.maxentry with
      | none => none
      | some maxentry =>
        let e := entry_at mem maxentry
        some { g with end_memory := wrap_u32 (e.base_addr_low + e.length_low) }
    else
      some g

/-- A memory holding the entries `es` back to back from address `p` (each entry occupies its
`size` field plus `size` bytes, as the scanner assumes) and zero everywhere else. -/
def store_map : Nat → List temp_multiboot_memory_map → memory
  | _, [] => fun _ => 0
  | p, e :: es => fun a =>
    if a = p then e.size
    else if a = p + 4 then e.base_addr_low
    else if a = p + 8 then e.base_addr_high
    else if a = p + 12 then e.length_low
    else if a = p + 16 then e.length_high
    else if a = p + 20 then e.type
    else store_map (p + e.size + 4) es a

/-- An entry of the standard size (20 bytes after the `size` field). -/
def mk_entry (type base length : Nat) : temp_multiboot_memory_map :=
  { size := 20, base_addr_low := base % 4294967296, base_addr_high := base / 4294967296,
    length_low := length % 4294967296, length_high := length / 4294967296, type := type }

/-! ## `page_directory_entry` (kernel.c, lines 13-28) -/

/-- The bit-field member `s` of the union `page_directory_entry`. -/
structure page_directory_entry where
  P : Nat
  R : Nat
  U : Nat
  W : Nat
  D : Nat
  A : Nat
  zero : Nat
  S : Nat
  G : Nat
  avail : Nat
  addr : Nat
  deriving DecidableEq, Repr

/-- Reading the member `s` of the union after its member `i` was written: the declared fields
are allocated from the least significant bit in declaration order, with the declared widths. -/
def page_directory_entry.decode (i : Nat) : page_directory_entry :=
  { P := i % 2
    R := i / 2 % 2
    U := i / 4 % 2
    W := i / 8 % 2
    D := i / 16 % 2
    A := i / 32 % 2
    zero := i / 64 % 2
    S := i / 128 % 2
    G := i / 256 % 2
    avail := i / 512 % 4
    addr := i / 2048 % 1048576 }

/-- Re-encoding: every declared field is put back at the offset `decode` took it from. -/
def page_directory_entry.encode (s : page_directory_entry) : Nat :=
  s.P % 2 + 2 * (s.R % 2) + 4 * (s.U % 2) + 8 * (s.W % 2) + 16 * (s.D % 2) + 32 * (s.A % 2) +
    64 * (s.zero % 2) + 128 * (s.S % 2) + 256 * (s.G % 2) + 512 * (s.avail % 4) +
    2048 * (s.addr % 1048576)

/-- The address `remap_VGA` prints for an entry: `pde.s.addr << 11`. -/
def decoded_address (i : Nat) : Nat := (page_directory_entry.decode i).addr <<< 11

/-! ## `remap_VGA` (kernel.c, lines 347-426) -/

/-- The active paging structures as `remap_VGA` addresses them: the 1024 words at `0xC0000000`
(page directory) and the 1024 words at `0xC0001000` (page table).  Console output goes to the
text buffer at `0xB8000` and to the stack buffer `str`, which are kept apart from them. -/
structure paging_state where
  page_directory : Nat → Nat
  page_table : Nat → Nat

/-- The two dump loops `while (i < 1024) { … i++; }` of `remap_VGA`, run over `table` from
index `i` for `n` more trips; they thread the buffer `str` and the console output. -/
def dump_while (fuel : Nat) (table : Nat → Nat) (fstring : Nat → Int) :
    Nat → Nat → (Nat → Int) × List call → Option ((Nat → Int) × List call)
  | _, 0, acc => some acc
  | i, n + 1, (str, out) =>
    let pde := page_directory_entry.decode (table i)
    if pde.P = 1 then
      match itoa fuel (wrap_int i) str 10 fstring with
      | none => none
      | some str1 =>
        match itoa fuel (wrap_int (pde.addr <<< 11 : Nat)) str1 16 fstring with
        | none => none
        | some str2 =>
          dump_while fuel table fstring (i + 1) n
            (str2, out ++ kernel_print (lit "Index: ") ++ kernel_println (c_string 33 str1) ++
              kernel_print (lit "Addr: ") ++ kernel_println (c_string 33 str2))
    else
      dump_while fuel table fstring (i + 1) n (str, out)

/-- The function `void remap_VGA()`: the paging structures it leaves behind and the console
calls it makes.  `vga` is the 16-bit cell read from `0xB8000`; `str` and `fstring` are the
initial contents of uninitialised stack storage. -/
def remap_VGA (fuel : Nat) (st : paging_state) (vga : Nat) (str fstring : Nat → Int) :
    Option (paging_state × List call) := do
  let out := kernel_error_println (lit "Paging complete")
  let st := { st with page_directory := Function.update st.page_directory 0 0x00000002 }
  let out := out ++ kernel_println (lit "VGA: ")
  let str ← itoa fuel (wrap_int (vga % 65536 : Nat)) str 2 fstring
  let out := out ++ kernel_println (c_string 33 str)
  let out := out ++ kernel_println (lit "PD2: ")
  let str ← itoa fuel (wrap_int 0xB8000) str 16 fstring
  let out := out ++ kernel_println (c_string 33 str)
  let (str, out) ← dump_while fuel st.page_directory fstring 0 1024 (str, out)
  let out := out ++ kernel_print (lit "Page Tables: ")
  let (_, out) ← dump_while fuel st.page_table fstring 0 1024 (str, out)
  some (st, out)


/-! ## Well-formed boot memory maps -/

/-- The entries `es` lie back to back in memory from address `p`, each followed by the next
after its `size` field plus `size` bytes. -/
def table_at (mem : memory) : Nat → List temp_multiboot_memory_map → Prop
  | _, [] => True
  | p, e :: es => entry_at mem p = e ∧ table_at mem (p + e.size + 4) es

instance table_at_decidable (mem : memory) :
    ∀ (p : Nat) (es : List temp_multiboot_memory_map), Decidable (table_at mem p es)
  | _, [] => isTrue trivial
  | p, e :: es =>
    have := table_at_decidable mem (p + e.size + 4) es
    inferInstanceAs (Decidable (entry_at mem p = e ∧ table_at mem (p + e.size + 4) es))

/-- Total number of bytes the entries occupy (`mmap_length`). -/
def map_bytes : List temp_multiboot_memory_map → Nat
  | [] => 0
  | e :: es => e.size + 4 + map_bytes es

/-- The boot information `mbd` describes the table `es`: it lies at `mmap_addr`, `mmap_length`
is its size in bytes, and it ends inside the 32-bit address space. -/
def well_formed_map (mem : memory) (mbd : multiboot_info) (es : List temp_multiboot_memory_map) :
    Prop :=
  table_at mem mbd.mmap_addr es ∧ mbd.mmap_length = map_bytes es ∧
    mbd.mmap_addr + mbd.mmap_length < 4294967296

instance well_formed_map_decidable (mem : memory) (mbd : multiboot_info)
    (es : List temp_multiboot_memory_map) : Decidable (well_formed_map mem mbd es) :=
  inferInstanceAs (Decidable (_ ∧ _ ∧ _))

/-- An address rounded up to the next multiple of 4096. -/
def round_up_4k (a : Nat) : Nat := (a + 4095) / 4096 * 4096

/-- The selection recorded in a scan state is sound: a positive `maxlength` is the low length
word of a usable entry that `maxentry` points at. -/
def selected_ok (mem : memory) (s : scan_state) : Prop :=
  0 < s.maxlength → ∃ p, s.maxentry = some p ∧ (entry_at mem p).type = 1 ∧
    (entry_at mem p).length_low = s.maxlength

/-! ## Concrete boot inputs -/

/-- Boot information for a two-entry table at `0x1000`. -/
def two_entry_mbd : multiboot_info := { mmap_length := 48, mmap_addr := 0x1000 }

/-- The map of the end-to-end scenario: low memory reserved, one usable region at 1 MiB. -/
def scenario_map : List temp_multiboot_memory_map :=
  [mk_entry 2 0 0x9FC00, mk_entry 1 0x100000 0x7EE0000]

/-- The same two regions reported in the other order, both usable. -/
def largest_first_map : List temp_multiboot_memory_map :=
  [mk_entry 1 0x100000 0x7EE0000, mk_entry 1 0 0x9FC00]

/-- A record that is malformed twice over: unknown type code 7 and zero length. -/
def malformed_record : temp_multiboot_memory_map := mk_entry 7 0xF0000 0

/-- The scenario map with `malformed_record` between its two entries. -/
def malformed_middle_map : List temp_multiboot_memory_map :=
  [mk_entry 2 0 0x9FC00] ++ malformed_record :: [mk_entry 1 0x100000 0x7EE0000]

/-- Boot information for a three-entry table at `0x1000`. -/
def three_entry_mbd : multiboot_info := { mmap_length := 72, mmap_addr := 0x1000 }

/-- A map without any usable region. -/
def all_reserved_map : List temp_multiboot_memory_map :=
  [mk_entry 2 0 0x9FC00, mk_entry 2 0x100000 0x7EE0000]

/-- A map whose only usable region ends below a kernel image that ends at `0x150000`. -/
def small_region_map : List temp_multiboot_memory_map :=
  [mk_entry 2 0 0x9FC00, mk_entry 1 0x100000 0x10000]

/-- A map whose usable region ends exactly at 4 GiB. -/
def top_region_map : List temp_multiboot_memory_map :=
  [mk_entry 2 0 0x9FC00, mk_entry 1 0x100000 0xFFF00000]

/-! ## Concrete paging states -/

/-- A paging state after boot: directory entry 0 points at the page table at `0x101000`, and
the table identity-maps the first three pages (all present and writable). -/
def boot_paging_state : paging_state :=
  { page_directory := fun i => if i = 0 then 0x00101003 else 0
    page_table := fun i => if i < 3 then 0x1000 * i + 3 else 0 }

/-! ## Specification-side notions for the Region Scanner -/

/-- The greatest low length word among the usable (type 1) records of a list, 0 if none. -/
def max_usable_length : List temp_multiboot_memory_map → Nat
  | [] => 0
  | e :: l => if e.type = 1 then max e.length_low (max_usable_length l) else max_usable_length l

/-- The first usable record of a list whose low length word is the greatest among the usable
records. -/
def first_largest_usable (l : List temp_multiboot_memory_map) :
    Option temp_multiboot_memory_map :=
  l.find? (fun e => decide (e.type = 1 ∧ e.length_low = max_usable_length l))

/-- The scan state `s` holds the selection for the records `l` examined so far. -/
def selects (mem : memory) (l : List temp_multiboot_memory_map) (s : scan_state) : Prop :=
  s.maxlength = max_usable_length l ∧
    (0 < s.maxlength → ∃ q, s.maxentry = some q ∧ first_largest_usable l = some (entry_at mem q))

/-- The character for a digit value: '0'-'9', then uppercase 'A'-'Z'. -/
def digit_char (n : Nat) : Int := if n < 10 then 48 + (n : Int) else 65 + ((n : Int) - 10)

/-- The digit value of a character written by `digit_char`. -/
def char_value (c : Int) : Nat := if c ≤ 57 then (c - 48).toNat else (c - 55).toNat

/-- Parsing a most-significant-first digit string in base `base`. -/
def parse (base : Nat) (s : List Int) : Nat :=
  s.foldl (fun acc c => acc * base + char_value c) 0

/-- The positional representation of `value` in base `base`, most significant digit first. -/
def numeral (base value : Nat) : List Int := ((Nat.digits base value).reverse).map digit_char

/-- The text `itoa` is expected to produce for a non-negative value: "0" for zero, the numeral
otherwise. -/
def itoa_text (base value : Nat) : List Int :=
  if value = 0 then [48] else numeral base value

/-- One console line on black background: the text in colour `fg`, then the newline character
with the same colours. -/
def console_line (text : List Int) (fg : vga_color) : List call :=
  [call.color_print text VGA_COLOR_BLACK fg, call.putchar 10 fg.val]

/-- Everything `kernel_main` is expected to send to the console before it calls `setup_paging`:
the banner, the welcome line, the test error line, the number 27976, and the kernel size as two
hexadecimal numbers (its top 4 bits and its low 28 bits).  Nothing in it depends on
`end_memory`. -/
def boot_console_report (start_kernel end_kernel : Nat) : List call :=
  [call.clear VGA_COLOR_BLACK] ++
  console_line (lit " ____                        _____   ____") VGA_COLOR_WHITE ++
  console_line (lit "/\\  _`\\                     /\\  __`\\/\\  _`\\") VGA_COLOR_WHITE ++
  console_line (lit "\\ \\ \\/\\ \\    ___     ___ ___\\ \\ \\/\\ \\ \\,\\L\\_\\") VGA_COLOR_WHITE ++
  console_line (lit " \\ \\ \\ \\ \\  / __`\\ /' __` __`\\ \\ \\ \\ \\/_\\__ \\") VGA_COLOR_WHITE ++
  console_line (lit "  \\ \\ \\_\\ \\/\\ \\L\\ \\/\\ \\/\\ \\/\\ \\ \\ \\_\\ \\/\\ \\L\\ \\")
    VGA_COLOR_WHITE ++
  console_line (lit "   \\ \\____/\\ \\____/\\ \\_\\ \\_\\ \\_\\ \\_____\\ `\\____\\") VGA_COLOR_WHITE ++
  console_line (lit "    \\/___/  \\/___/  \\/_/\\/_/\\/_/\\/_____/\\/_____/") VGA_COLOR_WHITE ++
  [call.color_print (lit "Welcome to ") VGA_COLOR_BLACK VGA_COLOR_WHITE,
   call.color_print (lit "DomOS\n") VGA_COLOR_BLACK VGA_COLOR_LIGHT_MAGENTA] ++
  console_line (lit "This is a test error print") VGA_COLOR_LIGHT_RED ++
  console_line (itoa_text 10 27976) VGA_COLOR_LIGHT_RED ++
  console_line (lit "Back in Kernel") VGA_COLOR_WHITE ++
  console_line (lit "Kernel Size: ") VGA_COLOR_WHITE ++
  console_line
    (itoa_text 16 ((end_kernel % 4294967296 + 4294967296 - start_kernel % 4294967296)
      % 4294967296 / 268435456)) VGA_COLOR_LIGHT_RED ++
  console_line
    (itoa_text 16 ((end_kernel % 4294967296 + 4294967296 - start_kernel % 4294967296)
      % 4294967296 % 268435456)) VGA_COLOR_LIGHT_RED

theorem wrap_int_of_small (n : Nat) (h : n ≤ 2147483647) : wrap_int (n : Int) = n := by
  unfold wrap_int; omega

theorem wrap_char_of_small (z : Int) (h0 : 0 ≤ z) (h : z ≤ 127) : wrap_char z = z := by
  unfold wrap_char; omega

theorem for_loop_rev (g : Nat → Int) (i : Nat) :
    ∀ (n lo : Nat) (f : Nat → Int) (m : Nat),
      for_loop (fun j f => Function.update f (j - 1) (g (i - j))) (lo + 1) n f m =
        if lo ≤ m ∧ m < lo + n then g (i - (m + 1)) else f m := by
  intro n
  induction n with
  | zero => intro lo f m; rw [for_loop, if_neg (by omega)]
  | succ n ih =>
    intro lo f m
    rw [for_loop, ih (lo + 1)]
    by_cases h1 : lo + 1 ≤ m ∧ m < lo + 1 + n
    · rw [if_pos h1, if_pos (by omega)]
    · rw [if_neg h1, Nat.add_sub_cancel]
      by_cases h2 : m = lo
      · subst h2
        rw [Function.update_same, if_pos (by omega)]
      · rw [if_neg (by omega), Function.update_noteq h2]

theorem for_loop_copy (src : Nat → Int) :
    ∀ (n lo : Nat) (t : Nat → Int) (m : Nat),
      for_loop (fun j t => Function.update t j (src j)) lo n t m =
        if lo ≤ m ∧ m < lo + n then src m else t m := by
  intro n
  induction n with
  | zero => intro lo t m; rw [for_loop, if_neg (by omega)]
  | succ n ih =>
    intro lo t m
    rw [for_loop, ih (lo + 1)]
    by_cases h1 : lo + 1 ≤ m ∧ m < lo + 1 + n
    · rw [if_pos h1, if_pos (by omega)]
    · rw [if_neg h1]
      by_cases h2 : m = lo
      · subst h2
        rw [Function.update_same, if_pos (by omega)]
      · rw [if_neg (by omega), Function.update_noteq h2]


theorem digit_of_step (b q : Nat) (hb36 : b ≤ 36) (hb : 2 ≤ b) :
    (if 57 < wrap_char (((q % b : Nat) : Int) + 48)
      then wrap_char (wrap_char (((q % b : Nat) : Int) + 48) + 7)
      else wrap_char (((q % b : Nat) : Int) + 48)) = digit_char (q % b) := by
  have h : q % b < b := Nat.mod_lt _ (by omega)
  have h1 : wrap_char (((q % b : Nat) : Int) + 48) = ((q % b : Nat) : Int) + 48 :=
    wrap_char_of_small _ (by omega) (by omega)
  rw [h1]
  unfold digit_char
  by_cases h2 : q % b < 10
  · rw [if_neg (by omega), if_pos h2]; omega
  · rw [if_pos (by omega), if_neg h2, wrap_char_of_small _ (by omega) (by omega)]; omega

theorem itoa_while_step (b B q : Nat) (hb : 2 ≤ b) (hb36 : b ≤ 36) (hB : 0 < B) (hq : 0 < q)
    (hBb : B * b ≤ 2147483647) (s : itoa_state) (hv : s.value = ((B * q : Nat) : Int))
    (hc : s.cbase = ((B * b : Nat) : Int)) (fuel : Nat) :
    itoa_while (b : Int) (fuel + 1) s =
      itoa_while (b : Int) fuel
        { value := ((B * b * (q / b) : Nat) : Int)
          cbase := wrap_int ((B * b * b : Nat) : Int)
          i := s.i + 1
          str := Function.update s.str s.i (digit_char (q % b)) } := by
  have hBq : 0 < B * q := Nat.mul_pos hB hq
  have hBb0 : 0 < B * b := Nat.mul_pos hB (by omega)
  have e1 : ((B * q : Nat) : Int).tmod ((B * b : Nat) : Int) = ((B * (q % b) : Nat) : Int) := by
    rw [← Int.ofNat_tmod, Nat.mul_mod_mul_left]
  have e2 : ((B * b : Nat) : Int).tdiv (b : Int) = (B : Int) := by
    rw [← Int.ofNat_tdiv, Nat.mul_div_cancel _ (by omega : 0 < b)]
  have e3 : ((B * (q % b) : Nat) : Int).tdiv (B : Int) = ((q % b : Nat) : Int) := by
    rw [← Int.ofNat_tdiv, Nat.mul_div_cancel_left _ hB]
  have e4 : ((B * q : Nat) : Int) - ((B * (q % b) : Nat) : Int) = ((B * b * (q / b) : Nat) : Int) := by
    have : B * q = B * (q % b) + B * b * (q / b) := by
      rw [Nat.mul_assoc, ← Nat.mul_add, Nat.mod_add_div]
    omega
  rw [itoa_while, hv, hc]
  have c1 : (0 : Int) < ((B * q : Nat) : Int) := by exact_mod_cast hBq
  have c2 : ¬ ((((B * b : Nat) : Int) = 0) ∨ (b : Int) = 0 ∨ ((B * b : Nat) : Int).tdiv (b : Int) = 0 ∨
      ((((B * b : Nat) : Int) = -2147483648) ∧ (b : Int) = -1)) := by
    rw [e2]
    omega
  have e5 : ((B * b : Nat) : Int) * (b : Int) = ((B * b * b : Nat) : Int) := by
    push_cast; ring
  rw [if_pos c1, if_neg c2]
  simp only [e1, e2, e3, e4, e5]
  rw [digit_of_step b q hb36 hb]

theorem itoa_while_run (b v d : Nat) (hb : 2 ≤ b) (hb36 : b ≤ 36) (hlt : v < b ^ d)
    (hge : ∀ k, k < d → b ^ k ≤ v) (hpow : b ^ d ≤ 2147483647) :
    ∀ (n k : Nat) (s : itoa_state) (fuel : Nat), k + n = d →
      s.value = ((b ^ k * (v / b ^ k) : Nat) : Int) →
      s.cbase = wrap_int ((b ^ k * b : Nat) : Int) → s.i = k → n < fuel →
      ∃ s', itoa_while (b : Int) fuel s = some s' ∧ s'.i = d ∧
        (∀ j, (j < k ∨ d ≤ j) → s'.str j = s.str j) ∧
        (∀ j, k ≤ j → j < d → s'.str j = digit_char (v / b ^ j % b)) := by
  intro n
  induction n with
  | zero =>
    intro k s fuel hk hv _ hi hf
    obtain ⟨f, rfl⟩ : ∃ f, fuel = f + 1 := ⟨fuel - 1, by omega⟩
    have hkd : k = d := by omega
    subst hkd
    have h0 : s.value = 0 := by
      rw [hv, Nat.div_eq_of_lt hlt, Nat.mul_zero]; rfl
    refine ⟨s, ?_, hi, fun _ _ => rfl, fun j h1 h2 => absurd h2 (by omega)⟩
    rw [itoa_while, if_neg (by omega)]
  | succ n ih =>
    intro k s fuel hk hv hc hi hf
    obtain ⟨f, rfl⟩ : ∃ f, fuel = f + 1 := ⟨fuel - 1, by omega⟩
    have hkd : k < d := by omega
    have hB : 0 < b ^ k := Nat.pow_pos (by omega)
    have hq : 0 < v / b ^ k := Nat.div_pos (hge k hkd) hB
    have hle : b ^ k * b ≤ b ^ d := by
      rw [← Nat.pow_succ]; exact Nat.pow_le_pow_right (by omega) hkd
    have hBb : b ^ k * b ≤ 2147483647 := le_trans hle hpow
    rw [wrap_int_of_small _ hBb] at hc
    rw [itoa_while_step b (b ^ k) (v / b ^ k) hb hb36 hB hq hBb s hv hc f]
    have hdiv : v / b ^ k / b = v / b ^ (k + 1) := by
      rw [Nat.div_div_eq_div_mul, ← Nat.pow_succ]
    obtain ⟨s', hs', hi', hkeep, hdig⟩ := ih (k + 1)
      { value := ((b ^ k * b * (v / b ^ k / b) : Nat) : Int)
        cbase := wrap_int ((b ^ k * b * b : Nat) : Int)
        i := s.i + 1
        str := Function.update s.str s.i (digit_char (v / b ^ k % b)) } f (by omega)
      (by simp only [hdiv, Nat.pow_succ]) (by simp only [Nat.pow_succ]) (by simp only [hi])
      (by omega)
    refine ⟨s', hs', hi', ?_, ?_⟩
    · intro j hj
      rw [hkeep j (by omega)]
      simp only
      rw [hi, Function.update_noteq (by omega)]
    · intro j h1 h2
      by_cases hjk : j = k
      · subst hjk
        rw [hkeep j (Or.inl (by omega))]
        simp only
        rw [hi, Function.update_same]
      · exact hdig j (by omega) h2


/-- What `itoa` leaves in `str` when `value` has exactly `d` digits in base `b`
(`d = 0` for `value = 0`) and the powers of the base up to `b ^ d` fit in an `int`. -/
theorem itoa_result (b v d : Nat) (hb : 2 ≤ b) (hb36 : b ≤ 36) (hlt : v < b ^ d)
    (hge : ∀ k, k < d → b ^ k ≤ v) (hpow : b ^ d ≤ 2147483647)
    (str fstring : Nat → Int) (fuel : Nat) (hf : d < fuel) :
    ∃ r, itoa fuel (v : Int) str (b : Int) fstring = some r ∧
      (d = 0 → r 0 = 48 ∧ r 1 = 0) ∧
      (0 < d → (∀ j, j < d → r j = digit_char (v / b ^ (d - (j + 1)) % b)) ∧ r d = 0) := by
  obtain ⟨s', hs', hi', _, hdig⟩ := itoa_while_run b v d hb hb36 hlt hge hpow d 0
    { value := (v : Int), cbase := (b : Int), i := 0, str := str } fuel (by omega)
    (by simp) (by simp only [Nat.pow_zero, Nat.one_mul]; rw [wrap_int_of_small _ (by omega)])
    rfl hf
  unfold itoa
  rw [hs']
  simp only [hi']
  by_cases hd : d = 0
  · rw [if_pos hd]
    refine ⟨_, rfl, fun _ => ?_, fun h => absurd h (by omega)⟩
    subst hd
    constructor
    · rw [Function.update_noteq (by omega), Function.update_same]
    · rw [Function.update_same]
  · rw [if_neg hd]
    refine ⟨_, rfl, fun h => absurd h hd, fun _ => ⟨fun j hj => ?_, ?_⟩⟩
    · rw [Function.update_noteq (by omega), for_loop_copy, if_pos (by omega)]
      have := for_loop_rev s'.str d d 0 fstring j
      rw [this, if_pos (by omega), hdig _ (by omega) (by omega)]
    · rw [Function.update_same]

/-- For `value <= 0` the loop is not entered and `itoa` writes "0". -/
theorem itoa_nonpos (value base : Int) (hv : value ≤ 0) (str fstring : Nat → Int) (fuel : Nat)
    (hf : 0 < fuel) :
    ∃ r, itoa fuel value str base fstring = some r ∧ r 0 = 48 ∧ r 1 = 0 := by
  obtain ⟨f, rfl⟩ : ∃ f, fuel = f + 1 := ⟨fuel - 1, by omega⟩
  unfold itoa
  rw [itoa_while, if_neg (by simpa using hv)]
  simp only
  refine ⟨_, rfl, ?_, ?_⟩
  · rw [Function.update_noteq (by omega), Function.update_same]
  · rw [Function.update_same]

theorem digits_eq_range (b : Nat) (hb : 2 ≤ b) :
    ∀ (d v : Nat), v < b ^ d → (∀ k, k < d → b ^ k ≤ v) →
      Nat.digits b v = (List.range d).map (fun j => v / b ^ j % b) := by
  intro d
  induction d with
  | zero =>
    intro v hv _
    have : v = 0 := by simpa using hv
    subst this
    simp
  | succ d ih =>
    intro v hv hge
    have hv0 : 0 < v := by
      have := hge 0 (by omega)
      simpa using this
    rw [Nat.digits_def' (by omega) hv0, List.range_succ_eq_map, List.map_cons, List.map_map]
    have h1 : v / b < b ^ d := by
      apply Nat.div_lt_of_lt_mul
      rw [← Nat.pow_succ']; exact hv
    have h2 : ∀ k, k < d → b ^ k ≤ v / b := by
      intro k hk
      rw [Nat.le_div_iff_mul_le (by omega), ← Nat.pow_succ]
      exact hge (k + 1) (by omega)
    rw [ih (v / b) h1 h2]
    congr 1
    · simp
    · apply List.map_congr_left
      intro j _
      simp only [Function.comp, Nat.succ_eq_add_one]
      rw [Nat.div_div_eq_div_mul, ← Nat.pow_succ']

/-- The digit count of a positive number brackets it between consecutive powers. -/
theorem digits_length_bounds (b v : Nat) (hb : 2 ≤ b) (hv : 0 < v) :
    v < b ^ (Nat.digits b v).length ∧ ∀ k, k < (Nat.digits b v).length → b ^ k ≤ v := by
  refine ⟨Nat.lt_base_pow_length_digits (by omega), fun k hk => ?_⟩
  have h := Nat.base_pow_length_digits_le b v (by omega) (by omega)
  obtain ⟨m, hm⟩ : ∃ m, (Nat.digits b v).length = m + 1 :=
    ⟨(Nat.digits b v).length - 1, by omega⟩
  rw [hm, Nat.pow_succ'] at h
  have h2 : b ^ m ≤ v := Nat.le_of_mul_le_mul_left h (by omega)
  exact le_trans (Nat.pow_le_pow_right (by omega) (by omega)) h2

theorem char_value_digit_char (n : Nat) : char_value (digit_char n) = n := by
  unfold char_value digit_char
  by_cases h : n < 10
  · rw [if_pos h, if_pos (by omega)]; omega
  · rw [if_neg h, if_neg (by omega)]; omega

theorem parse_numeral_aux (b : Nat) (L : List Nat) :
    parse b ((L.reverse).map digit_char) = Nat.ofDigits b L := by
  unfold parse
  induction L with
  | nil => simp
  | cons h t ih =>
    rw [List.reverse_cons, List.map_append, List.foldl_append, ih, Nat.ofDigits_cons]
    simp only [List.map_cons, List.map_nil, List.foldl_cons, List.foldl_nil]
    rw [char_value_digit_char]
    ring

theorem parse_numeral (b v : Nat) : parse b (numeral b v) = v := by
  unfold numeral
  rw [parse_numeral_aux, Nat.ofDigits_digits]

theorem digit_char_ne_zero (n : Nat) : digit_char n ≠ 0 := by
  unfold digit_char
  by_cases h : n < 10
  · rw [if_pos h]; omega
  · rw [if_neg h]; omega

/-- A buffer that holds the characters `l` followed by NUL reads back as `l`. -/
theorem c_string_of_chars (r : Nat → Int) (d cap : Nat) (hcap : d < cap)
    (hnz : ∀ j, j < d → r j ≠ 0) (hz : r d = 0) :
    c_string cap r = (List.range d).map r := by
  obtain ⟨m, rfl⟩ : ∃ m, cap = d + (m + 1) := ⟨cap - d - 1, by omega⟩
  unfold c_string
  rw [List.range_add, List.map_append, List.takeWhile_append_of_pos]
  · rw [List.range_succ_eq_map]
    simp [hz]
  · intro a ha
    rw [List.mem_map] at ha
    obtain ⟨j, hj, rfl⟩ := ha
    simpa using hnz j (List.mem_range.mp hj)


theorem numeral_eq (b v d : Nat) (hb : 2 ≤ b) (hlt : v < b ^ d)
    (hge : ∀ k, k < d → b ^ k ≤ v) :
    numeral b v = (List.range d).map (fun j => digit_char (v / b ^ (d - (j + 1)) % b)) := by
  unfold numeral
  rw [digits_eq_range b hb d v hlt hge]
  apply List.ext_getElem
  · simp
  · intro j h1 h2
    simp only [List.length_map, List.length_reverse, List.length_range] at h1
    simp only [List.getElem_map, List.getElem_reverse, List.getElem_range, List.length_map,
      List.length_range]
    have e : d - 1 - j = d - (j + 1) := by omega
    rw [e]

theorem digits_length_lt (b v : Nat) (hb : 2 ≤ b)
    (hpow : b ^ (Nat.digits b v).length ≤ 2147483647) : (Nat.digits b v).length < 31 := by
  have h1 : 2 ^ (Nat.digits b v).length ≤ b ^ (Nat.digits b v).length :=
    Nat.pow_le_pow_left hb _
  have h2 : 2 ^ (Nat.digits b v).length < 2 ^ 31 := by
    have : (2 : Nat) ^ 31 = 2147483648 := by norm_num
    omega
  exact (Nat.pow_lt_pow_iff_right (by omega)).mp h2

/-- Claim C10.  `itoa(value, str, base)` writes the positional representation: for every base
from 2 to 36 and every positive value whose digit count `d` satisfies `base ^ d <= 2^31 - 1`,
it returns with `str` holding the `d` digits of `value`, most significant first, as '0'-'9'
then 'A'-'Z', followed by NUL, and parsing that string in the same base gives `value` back;
for every `value <= 0` it returns with `str` holding "0". -/
theorem itoa_positional (str fstring : Nat → Int) (fuel : Nat) (hfuel : 32 ≤ fuel) :
    (∀ base value : Nat, 2 ≤ base → base ≤ 36 → 0 < value →
        base ^ (Nat.digits base value).length ≤ 2147483647 →
        ∃ r, itoa fuel (value : Int) str (base : Int) fstring = some r ∧
          (List.range (Nat.digits base value).length).map r = numeral base value ∧
          r (Nat.digits base value).length = 0 ∧
          c_string ((Nat.digits base value).length + 1) r = numeral base value ∧
          parse base (c_string ((Nat.digits base value).length + 1) r) = value) ∧
    (∀ value base : Int, value ≤ 0 →
        ∃ r, itoa fuel value str base fstring = some r ∧ r 0 = 48 ∧ r 1 = 0 ∧
          c_string 2 r = [48]) := by
  constructor
  · intro base value hb hb36 hv hpow
    obtain ⟨hlt, hge⟩ := digits_length_bounds base value hb hv
    have hd := digits_length_lt base value hb hpow
    have hdpos : 0 < (Nat.digits base value).length := by
      rcases Nat.eq_zero_or_pos (Nat.digits base value).length with h | h
      · rw [h] at hlt; simp at hlt; omega
      · exact h
    obtain ⟨r, hr, _, hpos⟩ := itoa_result base value _ hb hb36 hlt hge hpow str fstring fuel
      (by omega)
    obtain ⟨hdig, hnul⟩ := hpos hdpos
    have hmap : (List.range (Nat.digits base value).length).map r = numeral base value := by
      rw [numeral_eq base value _ hb hlt hge]
      apply List.map_congr_left
      intro j hj
      exact hdig j (List.mem_range.mp hj)
    have hcs : c_string ((Nat.digits base value).length + 1) r = numeral base value := by
      rw [c_string_of_chars r _ _ (Nat.lt_succ_self _) _ hnul, hmap]
      intro j hj
      rw [hdig j hj]
      exact digit_char_ne_zero _
    exact ⟨r, hr, hmap, hnul, hcs, by rw [hcs, parse_numeral]⟩
  · intro value base hv
    obtain ⟨r, hr, h0, h1⟩ := itoa_nonpos value base hv str fstring fuel (by omega)
    refine ⟨r, hr, h0, h1, ?_⟩
    rw [c_string_of_chars r 1 2 (by omega) _ h1]
    · simp [List.range_succ, h0]
    · intro j hj
      have : j = 0 := by omega
      subst this
      rw [h0]; omega

/-- Witness for claim C10: 27976 in base 10, the first number `kernel_main` prints. -/
theorem itoa_positional_witness :
    (∃ r, itoa 32 (27976 : Nat) (fun _ => 0) (10 : Nat) (fun _ => 0) = some r ∧
      (List.range (Nat.digits 10 27976).length).map r = numeral 10 27976 ∧
      r (Nat.digits 10 27976).length = 0 ∧
      c_string ((Nat.digits 10 27976).length + 1) r = numeral 10 27976 ∧
      parse 10 (c_string ((Nat.digits 10 27976).length + 1) r) = 27976) ∧
    numeral 10 27976 = [50, 55, 57, 55, 54] :=
  ⟨(itoa_positional (fun _ => 0) (fun _ => 0) 32 (by decide)).1 10 27976 (by decide) (by decide)
    (by decide) (by norm_num), by norm_num [numeral, digit_char]⟩

/-! ## Facts about `mboot_data` -/

theorem wrap_u32_of_lt (n : Nat) (h : n < 4294967296) : wrap_u32 n = n :=
  Nat.mod_eq_of_lt h

theorem wrap_u32_lt (n : Nat) : wrap_u32 n < 4294967296 :=
  Nat.mod_lt _ (by decide)

theorem scan_body_selected_ok (mem : memory) (s : scan_state) (h : selected_ok mem s) :
    selected_ok mem (scan_body mem s) := by
  unfold scan_body
  simp only
  split
  · rename_i ht
    split
    · intro _
      exact ⟨_, rfl, ht, rfl⟩
    · exact h
  · exact h

theorem scan_while_selected_ok (mem : memory) (mbd : multiboot_info) :
    ∀ (fuel : Nat) (s s' : scan_state), scan_while mem mbd fuel s = some s' →
      selected_ok mem s → selected_ok mem s' := by
  intro fuel
  induction fuel with
  | zero => intro s s' h; simp [scan_while] at h
  | succ f ih =>
    intro s s' h hs
    rw [scan_while] at h
    split at h
    · exact ih _ _ h (scan_body_selected_ok mem s hs)
    · cases h; exact hs

theorem scan_init_selected_ok (mem : memory) (mbd : multiboot_info) :
    selected_ok mem (scan_init mbd) := by
  intro h
  simp [scan_init] at h

/-- On a table laid out back to back, the loop makes one trip per entry and then stops. -/
theorem scan_while_table (mem : memory) (mbd : multiboot_info) :
    ∀ (es : List temp_multiboot_memory_map) (p : Nat) (s : scan_state) (fuel : Nat),
      table_at mem p es → s.entry = p →
      p + map_bytes es = wrap_u32 (wrap_u32 mbd.mmap_addr + wrap_u32 mbd.mmap_length) →
      es.length < fuel →
      scan_while mem mbd fuel s = some ((scan_body mem)^[es.length] s) := by
  intro es
  induction es with
  | nil =>
    intro p s fuel _ hs hend hf
    obtain ⟨f, rfl⟩ : ∃ f, fuel = f + 1 := ⟨fuel - 1, by simp at hf; omega⟩
    simp only [map_bytes, Nat.add_zero] at hend
    rw [scan_while, if_neg (by omega)]
    rfl
  | cons e es ih =>
    intro p s fuel ht hs hend hf
    obtain ⟨f, rfl⟩ : ∃ f, fuel = f + 1 := ⟨fuel - 1, by simp at hf; omega⟩
    obtain ⟨he, hrest⟩ := ht
    simp only [map_bytes] at hend
    have hlt := wrap_u32_lt (wrap_u32 mbd.mmap_addr + wrap_u32 mbd.mmap_length)
    rw [scan_while, if_pos (by omega)]
    simp only [List.length_cons, Function.iterate_succ_apply]
    apply ih (p + e.size + 4) _ f hrest
    · unfold scan_body
      simp only [hs, he]
      rw [wrap_u32_of_lt _ (by omega)]
      split
      · split <;> rfl
      · rfl
    · omega
    · simp only [List.length_cons] at hf; omega


/-- The loop bound of a well-formed map is the address just past the table. -/
theorem well_formed_map_end (mem : memory) (mbd : multiboot_info)
    (es : List temp_multiboot_memory_map) (h : well_formed_map mem mbd es) :
    wrap_u32 mbd.mmap_addr = mbd.mmap_addr ∧
      mbd.mmap_addr + map_bytes es =
        wrap_u32 (wrap_u32 mbd.mmap_addr + wrap_u32 mbd.mmap_length) := by
  obtain ⟨_, hlen, hend⟩ := h
  rw [wrap_u32_of_lt mbd.mmap_addr (by omega), wrap_u32_of_lt mbd.mmap_length (by omega),
    wrap_u32_of_lt _ hend, hlen]
  exact ⟨rfl, rfl⟩

/-- On a well-formed map the scan loop returns after one trip per entry. -/
theorem scan_while_well_formed (mem : memory) (mbd : multiboot_info)
    (es : List temp_multiboot_memory_map) (h : well_formed_map mem mbd es) (fuel : Nat)
    (hf : es.length < fuel) :
    scan_while mem mbd fuel (scan_init mbd) =
      some ((scan_body mem)^[es.length] (scan_init mbd)) := by
  obtain ⟨hw, hend⟩ := well_formed_map_end mem mbd es h
  exact scan_while_table mem mbd es mbd.mmap_addr (scan_init mbd) fuel h.1
    (by simp only [scan_init]; exact hw) hend hf

/-- If neither the entries after the first nor the record just past the table are usable,
the scan leaves its selection untouched. -/
theorem scan_iterate_no_usable (mem : memory) :
    ∀ (es : List temp_multiboot_memory_map) (p : Nat) (s : scan_state),
      table_at mem p es → s.entry = p → p + map_bytes es < 4294967296 →
      (∀ e ∈ es.tail, e.type ≠ 1) → (entry_at mem (p + map_bytes es)).type ≠ 1 →
      ((scan_body mem)^[es.length] s).maxlength = s.maxlength ∧
        ((scan_body mem)^[es.length] s).maxentry = s.maxentry := by
  intro es
  induction es with
  | nil => intro p s _ _ _ _ _; exact ⟨rfl, rfl⟩
  | cons e es ih =>
    intro p s ht hs hend htail hlast
    obtain ⟨he, hrest⟩ := ht
    simp only [map_bytes] at hend hlast
    simp only [List.tail_cons] at htail
    simp only [List.length_cons, Function.iterate_succ_apply]
    have hnext : (entry_at mem (p + e.size + 4)).type ≠ 1 := by
      cases es with
      | nil => simpa [map_bytes] using hlast
      | cons e2 es2 => rw [hrest.1]; exact htail e2 (List.mem_cons_self _ _)
    have hbody : scan_body mem s = { s with entry := p + e.size + 4 } := by
      unfold scan_body
      simp only [hs, he]
      rw [wrap_u32_of_lt _ (by omega), if_neg hnext]
    rw [hbody]
    exact ih (p + e.size + 4) _ hrest rfl (by omega)
      (fun x hx => htail x (List.mem_of_mem_tail hx))
      (by rw [show p + e.size + 4 + map_bytes es = p + (e.size + 4 + map_bytes es) by omega]
          exact hlast)

/-- The function `mboot_data` in terms of the state its loop ends in. -/
theorem mboot_data_of_scan (fuel : Nat) (mem : memory) (mbd : multiboot_info) (end_kernel : Nat)
    (g : globals) (s : scan_state) (hs : scan_while mem mbd fuel (scan_init mbd) = some s)
    (hok : selected_ok mem s) :
    ∃ g', mboot_data fuel mem mbd end_kernel g = some g' ∧
      g'.end_kernel = wrap_u32 end_kernel ∧ g'.first_frame = wrap_u32 end_kernel ∧
      (s.maxlength = 0 → g'.end_memory = g.end_memory) ∧
      (0 < s.maxlength → ∃ p, s.maxentry = some p ∧ (entry_at mem p).type = 1 ∧
        (entry_at mem p).length_low = s.maxlength ∧
        g'.end_memory =
          ((entry_at mem p).base_addr_low + (entry_at mem p).length_low) % 4294967296) := by
  unfold mboot_data
  rw [hs]
  simp only
  by_cases hm : 0 < s.maxlength
  · obtain ⟨p, hp, ht, hl⟩ := hok hm
    rw [if_pos hm, hp]
    exact ⟨_, rfl, rfl, rfl, fun h => absurd h (by omega), fun _ => ⟨p, rfl, ht, hl, rfl⟩⟩
  · rw [if_neg hm]
    exact ⟨_, rfl, rfl, rfl, fun _ => rfl, fun h => absurd h hm⟩

/-- Whatever `mboot_data` returns has `first_frame` and `end_kernel` set to the kernel end. -/
theorem mboot_data_first_frame (fuel : Nat) (mem : memory) (mbd : multiboot_info)
    (end_kernel : Nat) (g g' : globals) (h : mboot_data fuel mem mbd end_kernel g = some g') :
    g'.first_frame = wrap_u32 end_kernel ∧ g'.end_kernel = wrap_u32 end_kernel := by
  unfold mboot_data at h
  split at h
  · cases h
  · simp only at h
    split at h
    · split at h
      · cases h
      · cases h; exact ⟨rfl, rfl⟩
    · cases h; exact ⟨rfl, rfl⟩


/-! ## What the scan loop selects -/

theorem max_usable_length_append (l : List temp_multiboot_memory_map)
    (x : temp_multiboot_memory_map) :
    max_usable_length (l ++ [x]) =
      if x.type = 1 then max (max_usable_length l) x.length_low else max_usable_length l := by
  induction l with
  | nil =>
    simp only [List.nil_append, max_usable_length]
    split <;> simp
  | cons e l ih =>
    rw [List.cons_append, max_usable_length, max_usable_length, ih]
    split <;> split <;> simp [max_assoc]

theorem le_max_usable_length (l : List temp_multiboot_memory_map) :
    ∀ e ∈ l, e.type = 1 → e.length_low ≤ max_usable_length l := by
  induction l with
  | nil => intro e he; simp at he
  | cons a l ih =>
    intro e he ht
    simp only [max_usable_length]
    rcases List.mem_cons.mp he with h | h
    · subst h
      rw [if_pos ht]
      exact le_max_left _ _
    · have := ih e h ht
      split
      · exact le_trans this (le_max_right _ _)
      · exact this

/-- One trip through the loop body extends the selection by the record the advanced pointer
points at. -/
theorem scan_body_selects (mem : memory) (l : List temp_multiboot_memory_map) (s : scan_state)
    (h : selects mem l s) :
    selects mem (l ++ [entry_at mem (wrap_u32 (s.entry + (entry_at mem s.entry).size + 4))])
      (scan_body mem s) := by
  obtain ⟨hlen, hsel⟩ := h
  unfold selects first_largest_usable at *
  unfold scan_body
  obtain ⟨x, hx⟩ : ∃ x, entry_at mem (wrap_u32 (s.entry + (entry_at mem s.entry).size + 4)) = x :=
    ⟨_, rfl⟩
  simp only [hx]
  rw [max_usable_length_append, List.find?_append]
  by_cases ht : x.type = 1
  · rw [if_pos ht, if_pos ht]
    by_cases hc : s.maxlength = 0 ∨ s.maxlength < x.length_low
    · rw [if_pos hc]
      simp only
      have hmax : max (max_usable_length l) x.length_low = x.length_low := by
        rw [← hlen]
        rcases hc with h0 | h1
        · rw [h0]; exact Nat.max_eq_right (Nat.zero_le _)
        · exact Nat.max_eq_right (Nat.le_of_lt h1)
      rw [hmax]
      refine ⟨rfl, fun hpos => ⟨_, rfl, ?_⟩⟩
      have hnone : List.find? (fun e => decide (e.type = 1 ∧ e.length_low = x.length_low)) l
          = none := by
        rw [List.find?_eq_none]
        intro e he hp
        simp only [decide_eq_true_eq] at hp
        have hle := le_max_usable_length l e he hp.1
        rw [← hlen] at hle
        omega
      rw [hnone, Option.none_or, List.find?_cons_of_pos _ (by simp [ht]), hx]
    · rw [if_neg hc]
      have hpos : 0 < s.maxlength := by omega
      have hmax : max (max_usable_length l) x.length_low = max_usable_length l := by
        rw [← hlen]
        exact Nat.max_eq_left (by omega)
      rw [hmax]
      refine ⟨hlen, fun _ => ?_⟩
      obtain ⟨q, hq, hfind⟩ := hsel hpos
      exact ⟨q, hq, by rw [hfind, Option.or_some]⟩
  · rw [if_neg ht, if_neg ht]
    refine ⟨hlen, fun hpos => ?_⟩
    obtain ⟨q, hq, hfind⟩ := hsel hpos
    exact ⟨q, hq, by rw [hfind, Option.or_some]⟩

/-- On a table laid out back to back, the loop examines the entries after the first and then
the record just past the table, and ends with the selection among exactly those. -/
theorem scan_iterate_selects (mem : memory) :
    ∀ (es : List temp_multiboot_memory_map) (e : temp_multiboot_memory_map) (p : Nat)
      (s : scan_state) (seen : List temp_multiboot_memory_map),
      table_at mem p (e :: es) → s.entry = p → p + map_bytes (e :: es) < 4294967296 →
      selects mem seen s →
      selects mem (seen ++ es ++ [entry_at mem (p + map_bytes (e :: es))])
        ((scan_body mem)^[(e :: es).length] s) := by
  intro es
  induction es with
  | nil =>
    intro e p s seen ht hs hend hsel
    obtain ⟨he, _⟩ := ht
    simp only [map_bytes, Nat.add_zero] at hend ⊢
    have := scan_body_selects mem seen s hsel
    rw [hs, he, wrap_u32_of_lt _ (by omega)] at this
    simpa [Nat.add_assoc] using this
  | cons e2 es ih =>
    intro e p s seen ht hs hend hsel
    obtain ⟨he, hrest⟩ := ht
    simp only [map_bytes] at hend
    have hstep := scan_body_selects mem seen s hsel
    rw [hs, he, wrap_u32_of_lt _ (by omega), hrest.1] at hstep
    have hentry : (scan_body mem s).entry = p + e.size + 4 := by
      unfold scan_body
      simp only [hs, he]
      rw [wrap_u32_of_lt _ (by omega)]
      split
      · split <;> rfl
      · rfl
    have := ih e2 (p + e.size + 4) (scan_body mem s) (seen ++ [e2]) hrest hentry
      (by simp only [map_bytes]; omega) hstep
    rw [List.length_cons, Function.iterate_succ_apply]
    have hb : p + map_bytes (e :: e2 :: es) = p + e.size + 4 + map_bytes (e2 :: es) := by
      simp only [map_bytes]; omega
    rw [hb]
    simpa using this

/-- What the Region Scanner computes on a well-formed, non-empty boot memory map: it returns,
and its selection is the first record of greatest low length word among the usable records of
the table without its first entry, followed by the record just past the table; `end_memory` is
set from that record when its length is positive and left alone otherwise. -/
theorem mboot_data_selects_among_examined (mem : memory) (mbd : multiboot_info)
    (e : temp_multiboot_memory_map) (es : List temp_multiboot_memory_map) (end_kernel : Nat)
    (g : globals) (fuel : Nat) (hmap : well_formed_map mem mbd (e :: es))
    (hfuel : (e :: es).length < fuel) :
    ∃ g', mboot_data fuel mem mbd end_kernel g = some g' ∧
      (max_usable_length (es ++ [entry_at mem (mbd.mmap_addr + mbd.mmap_length)]) = 0 →
        g'.end_memory = g.end_memory) ∧
      (0 < max_usable_length (es ++ [entry_at mem (mbd.mmap_addr + mbd.mmap_length)]) →
        ∃ m, first_largest_usable (es ++ [entry_at mem (mbd.mmap_addr + mbd.mmap_length)])
            = some m ∧
          g'.end_memory = (m.base_addr_low + m.length_low) % 4294967296) := by
  have hs := scan_while_well_formed mem mbd (e :: es) hmap fuel hfuel
  have hok := scan_while_selected_ok mem mbd fuel _ _ hs (scan_init_selected_ok mem mbd)
  obtain ⟨g', hg', _, _, hzero, hsel⟩ := mboot_data_of_scan fuel mem mbd end_kernel g _ hs hok
  obtain ⟨ht, hlen, hend⟩ := hmap
  have hinit : selects mem [] (scan_init mbd) :=
    ⟨rfl, fun h => absurd h (by simp [scan_init])⟩
  have hfin := scan_iterate_selects mem es e mbd.mmap_addr (scan_init mbd) [] ht
    (by simp only [scan_init]; exact wrap_u32_of_lt _ (by omega)) (by omega) hinit
  rw [← hlen, List.nil_append] at hfin
  obtain ⟨hmax, hfirst⟩ := hfin
  refine ⟨g', hg', fun h0 => hzero (by rw [hmax, h0]), fun hpos => ?_⟩
  rw [← hmax] at hpos
  obtain ⟨q, hq, hfq⟩ := hfirst hpos
  obtain ⟨p, hp, _, _, hmem⟩ := hsel hpos
  rw [hq] at hp
  cases hp
  exact ⟨_, hfq, hmem⟩

/-- The function `itoa` returns whenever the value is below a power of the base that fits in
an `int`. -/
theorem itoa_returns (b v k : Nat) (hb : 2 ≤ b) (hb36 : b ≤ 36) (hv : v < b ^ k)
    (hk : b ^ k ≤ 2147483647) (str fstring : Nat → Int) (fuel : Nat) (hf : k < fuel) :
    ∃ r, itoa fuel (v : Int) str (b : Int) fstring = some r := by
  rcases Nat.eq_zero_or_pos v with h0 | hpos
  · subst h0
    obtain ⟨r, hr, _⟩ := itoa_nonpos ((0 : Nat) : Int) (b : Int) (by simp) str fstring fuel
      (by omega)
    exact ⟨r, hr⟩
  · obtain ⟨hlt, hge⟩ := digits_length_bounds b v hb hpos
    have hdk : (Nat.digits b v).length ≤ k := by
      by_contra hcon
      have h1 : b ^ k ≤ v := hge k (by omega)
      omega
    have hpow : b ^ (Nat.digits b v).length ≤ 2147483647 :=
      le_trans (Nat.pow_le_pow_right (by omega) hdk) hk
    obtain ⟨r, hr, _⟩ := itoa_result b v _ hb hb36 hlt hge hpow str fstring fuel (by omega)
    exact ⟨r, hr⟩

/-- The function `kernel_main` always reaches `setup_paging`, hands it `first_frame`, and
returns `first_frame`. -/
theorem kernel_main_returns (fuel : Nat) (hf : 32 ≤ fuel) (start_kernel end_kernel : Nat)
    (g : globals) (str fstring : Nat → Int) :
    ∃ out, kernel_main fuel start_kernel end_kernel g str fstring =
      some (out ++ [call.setup_paging g.first_frame start_kernel end_kernel],
        wrap_u32 g.first_frame) := by
  have hx : ((charToEntry 72 (get_colors VGA_COLOR_BROWN VGA_COLOR_LIGHT_MAGENTA) : Nat) : Int)
      = ((27976 : Nat) : Int) := by decide
  obtain ⟨r1, h1⟩ := itoa_returns 10 27976 5 (by decide) (by decide) (by decide) (by decide)
    str fstring fuel (by omega)
  generalize hy : wrap_u32 (wrap_u32 end_kernel + 4294967296 - wrap_u32 start_kernel) = y
  have hylt : y < 4294967296 := by rw [← hy]; exact wrap_u32_lt _
  have h28 : y >>> 28 < 16 := by
    rw [Nat.shiftRight_eq_div_pow]
    exact Nat.div_lt_of_lt_mul (by norm_num; omega)
  have hand : y &&& 0x0FFFFFFF < 268435456 := by
    have := @Nat.and_le_right y 0x0FFFFFFF
    omega
  obtain ⟨r2, h2⟩ := itoa_returns 16 (y >>> 28) 1 (by decide) (by decide) (by simpa using h28)
    (by decide) r1 fstring fuel (by omega)
  obtain ⟨r3, h3⟩ := itoa_returns 16 (y &&& 0x0FFFFFFF) 7 (by decide) (by decide)
    (by norm_num; exact hand) (by decide) r2 fstring fuel (by omega)
  rw [← wrap_int_of_small (y >>> 28) (by omega)] at h2
  rw [← wrap_int_of_small (y &&& 0x0FFFFFFF) (by omega)] at h3
  simp only [Nat.cast_ofNat] at h1 h2 h3 hx
  unfold kernel_main
  simp only [hy, hx, bind, Option.bind, h1, h2, h3]
  exact ⟨_, rfl⟩

/-- The string `itoa` leaves in `str`, for a value below a power of the base that fits in an
`int`. -/
theorem itoa_string (b v k : Nat) (hb : 2 ≤ b) (hb36 : b ≤ 36) (hv : v < b ^ k)
    (hk : b ^ k ≤ 2147483647) (str fstring : Nat → Int) (fuel : Nat) (hf : k < fuel)
    (cap : Nat) (hcap : k < cap) (hcap1 : 1 < cap) :
    ∃ r, itoa fuel (v : Int) str (b : Int) fstring = some r ∧ c_string cap r = itoa_text b v := by
  unfold itoa_text
  rcases Nat.eq_zero_or_pos v with h0 | hpos
  · subst h0
    obtain ⟨r, hr, hr0, hr1⟩ := itoa_nonpos ((0 : Nat) : Int) (b : Int) (by simp) str fstring
      fuel (by omega)
    refine ⟨r, hr, ?_⟩
    rw [if_pos rfl, c_string_of_chars r 1 cap hcap1 _ hr1]
    · simp [List.range_succ, hr0]
    · intro j hj
      have : j = 0 := by omega
      subst this
      rw [hr0]; omega
  · obtain ⟨hlt, hge⟩ := digits_length_bounds b v hb hpos
    have hdk : (Nat.digits b v).length ≤ k := by
      by_contra hcon
      have h1 : b ^ k ≤ v := hge k (by omega)
      omega
    have hpow : b ^ (Nat.digits b v).length ≤ 2147483647 :=
      le_trans (Nat.pow_le_pow_right (by omega) hdk) hk
    have hdpos : 0 < (Nat.digits b v).length := by
      rcases Nat.eq_zero_or_pos (Nat.digits b v).length with h | h
      · rw [h] at hlt; simp at hlt; omega
      · exact h
    obtain ⟨r, hr, _, hrpos⟩ := itoa_result b v _ hb hb36 hlt hge hpow str fstring fuel
      (by omega)
    obtain ⟨hdig, hnul⟩ := hrpos hdpos
    refine ⟨r, hr, ?_⟩
    rw [if_neg (by omega), c_string_of_chars r _ cap (by omega) _ hnul,
      numeral_eq b v _ hb hlt hge]
    · apply List.map_congr_left
      intro j hj
      exact hdig j (List.mem_range.mp hj)
    · intro j hj
      rw [hdig j hj]
      exact digit_char_ne_zero _

/-- The function `kernel_main` makes exactly the calls of `boot_console_report`, then calls
`setup_paging` with `first_frame`, and returns `first_frame`. -/
theorem kernel_main_calls (fuel : Nat) (hf : 32 ≤ fuel) (start_kernel end_kernel : Nat)
    (g : globals) (str fstring : Nat → Int) :
    kernel_main fuel start_kernel end_kernel g str fstring =
      some (boot_console_report start_kernel end_kernel ++
          [call.setup_paging g.first_frame start_kernel end_kernel],
        wrap_u32 g.first_frame) := by
  have hx : ((charToEntry 72 (get_colors VGA_COLOR_BROWN VGA_COLOR_LIGHT_MAGENTA) : Nat) : Int)
      = ((27976 : Nat) : Int) := by decide
  obtain ⟨r1, h1, c1⟩ := itoa_string 10 27976 5 (by decide) (by decide) (by decide) (by decide)
    str fstring fuel (by omega) 30 (by decide) (by decide)
  generalize hy : wrap_u32 (wrap_u32 end_kernel + 4294967296 - wrap_u32 start_kernel) = y
  have hy' : (end_kernel % 4294967296 + 4294967296 - start_kernel % 4294967296) % 4294967296
      = y := hy
  have hylt : y < 4294967296 := by rw [← hy]; exact wrap_u32_lt _
  have e28 : y >>> 28 = y / 268435456 := by rw [Nat.shiftRight_eq_div_pow]
  have eand : y &&& 0x0FFFFFFF = y % 268435456 :=
    Nat.and_pow_two_sub_one_eq_mod y 28
  have h28 : y / 268435456 < 16 := by omega
  have hand : y % 268435456 < 268435456 := Nat.mod_lt _ (by decide)
  obtain ⟨r2, h2, c2⟩ := itoa_string 16 (y / 268435456) 1 (by decide) (by decide)
    (by simpa using h28) (by decide) r1 fstring fuel (by omega) 30 (by decide) (by decide)
  obtain ⟨r3, h3, c3⟩ := itoa_string 16 (y % 268435456) 7 (by decide) (by decide)
    (by norm_num; exact hand) (by decide) r2 fstring fuel (by omega) 30 (by decide)
    (by decide)
  rw [← wrap_int_of_small (y / 268435456) (by omega)] at h2
  rw [← wrap_int_of_small (y % 268435456) (by omega)] at h3
  simp only [Nat.cast_ofNat] at h1 h2 h3 hx
  unfold kernel_main boot_console_report
  simp only [hy, hy', hx, e28, eand, bind, Option.bind, h1, h2, h3, c1, c2, c3]
  rfl

/-! ## The claims about the Region Scanner and the frame cursor -/

/-- Claim C1 (fails on the code).  On the table `[usable 0x100000+0x7EE0000, usable 0+0x9FC00]`
the loop advances past the first entry before examining anything, so the scanner selects the
second, smaller entry and records `end_memory = 0x9FC00`; the largest usable entry, with end
address `0x7FE0000`, is never looked at. -/
theorem mboot_data_skips_first_entry :
    scan_while (store_map 0x1000 largest_first_map) two_entry_mbd 3 (scan_init two_entry_mbd) =
        some { entry := 0x1030, maxentry := some 0x1018, maxlength := 0x9FC00 } ∧
      mboot_data 3 (store_map 0x1000 largest_first_map) two_entry_mbd 0x150000 globals.init =
        some { end_kernel := 0x150000, end_memory := 0x9FC00, first_frame := 0x150000 } ∧
      well_formed_map (store_map 0x1000 largest_first_map) two_entry_mbd largest_first_map := by
  decide

/-- On the map of the end-to-end scenario (zero memory behind the table) the scanner selects
the region at `0x100000` of length `0x7EE0000`. -/
theorem mboot_data_scenario :
    scan_while (store_map 0x1000 scenario_map) two_entry_mbd 3 (scan_init two_entry_mbd) =
        some { entry := 0x1030, maxentry := some 0x1018, maxlength := 0x7EE0000 } ∧
      entry_at (store_map 0x1000 scenario_map) 0x1018 = mk_entry 1 0x100000 0x7EE0000 ∧
      mboot_data 3 (store_map 0x1000 scenario_map) two_entry_mbd 0x150000 globals.init =
        some { end_kernel := 0x150000, end_memory := 0x7FE0000, first_frame := 0x150000 } := by
  decide

/-- Claim C2 (fails on the code): with a map of reserved regions only, `mboot_data` returns
normally and `kernel_main` still calls `setup_paging` with the frame cursor `0x150000` and
returns that cursor. -/
theorem no_usable_memory_still_pages :
    (∀ e ∈ all_reserved_map, e.type ≠ 1) ∧
    ∃ g' out,
      mboot_data 3 (store_map 0x1000 all_reserved_map) two_entry_mbd 0x150000 globals.init =
          some g' ∧
        kernel_main 32 0x100000 0x150000 g' (fun _ => 0) (fun _ => 0) =
          some (out ++ [call.setup_paging 0x150000 0x100000 0x150000], 0x150000) := by
  refine ⟨by decide, ?_⟩
  obtain ⟨out, h⟩ := kernel_main_returns 32 (by decide) 0x100000 0x150000
    { end_kernel := 0x150000, end_memory := 0, first_frame := 0x150000 }
    (fun _ => 0) (fun _ => 0)
  exact ⟨_, out, by decide, h⟩

/-- Claim C2 (as the code has it).  For every well-formed boot memory map without a usable
entry, `mboot_data` signals nothing: it returns with `first_frame` and `end_kernel` set to the
kernel end address, and with `end_memory` unchanged when the record just past the table is not
usable either; `kernel_main` then calls `setup_paging(first_frame, &_start_kernel,
&_end_kernel)` and returns `first_frame`. -/
theorem no_usable_memory_not_signalled (mem : memory) (mbd : multiboot_info)
    (es : List temp_multiboot_memory_map) (start_kernel end_kernel : Nat) (g : globals)
    (str fstring : Nat → Int) (fuel fuel' : Nat)
    (hmap : well_formed_map mem mbd es) (hnone : ∀ e ∈ es, e.type ≠ 1)
    (hfuel : es.length < fuel) (hfuel' : 32 ≤ fuel') :
    ∃ g' out, mboot_data fuel mem mbd end_kernel g = some g' ∧
      g'.first_frame = wrap_u32 end_kernel ∧ g'.end_kernel = wrap_u32 end_kernel ∧
      ((entry_at mem (mbd.mmap_addr + mbd.mmap_length)).type ≠ 1 →
        g'.end_memory = g.end_memory) ∧
      kernel_main fuel' start_kernel end_kernel g' str fstring =
        some (out ++ [call.setup_paging (wrap_u32 end_kernel) start_kernel end_kernel],
          wrap_u32 end_kernel) := by
  have hs := scan_while_well_formed mem mbd es hmap fuel hfuel
  have hok := scan_while_selected_ok mem mbd fuel _ _ hs (scan_init_selected_ok mem mbd)
  obtain ⟨g', hg', hek, hff, hzero, _⟩ := mboot_data_of_scan fuel mem mbd end_kernel g _ hs hok
  obtain ⟨out, hout⟩ := kernel_main_returns fuel' hfuel' start_kernel end_kernel g' str fstring
  refine ⟨g', out, hg', hff, hek, ?_, ?_⟩
  · intro hlast
    apply hzero
    obtain ⟨ht, hlen, hend⟩ := hmap
    have hnu := scan_iterate_no_usable mem es mbd.mmap_addr (scan_init mbd) ht
      (by simp only [scan_init]; exact wrap_u32_of_lt _ (by omega)) (by omega)
      (fun e he => hnone e (List.mem_of_mem_tail he)) (by rw [← hlen]; exact hlast)
    rw [hnu.1]
    rfl
  · rw [hout, hff, wrap_u32_of_lt _ (wrap_u32_lt _)]

/-- Witness for claim C2: the all-reserved map at `0x1000`. -/
theorem no_usable_memory_not_signalled_witness :
    ∃ g' out,
      mboot_data 3 (store_map 0x1000 all_reserved_map) two_entry_mbd 0x150000 globals.init =
          some g' ∧
        g'.first_frame = wrap_u32 0x150000 ∧ g'.end_kernel = wrap_u32 0x150000 ∧
        ((entry_at (store_map 0x1000 all_reserved_map)
            (two_entry_mbd.mmap_addr + two_entry_mbd.mmap_length)).type ≠ 1 →
          g'.end_memory = globals.init.end_memory) ∧
        kernel_main 32 0x100000 0x150000 g' (fun _ => 0) (fun _ => 0) =
          some (out ++ [call.setup_paging (wrap_u32 0x150000) 0x100000 0x150000],
            wrap_u32 0x150000) :=
  no_usable_memory_not_signalled (store_map 0x1000 all_reserved_map) two_entry_mbd
    all_reserved_map 0x100000 0x150000 globals.init (fun _ => 0) (fun _ => 0) 3 32
    (by decide) (by decide) (by decide) (by decide)


/-- Claim C3 (fails on the code): the selected region `0x100000 + 0x10000` ends at `0x110000`,
below the kernel end `0x150000`, and `kernel_main` still calls `setup_paging`. -/
theorem kernel_not_contained_still_pages :
    ∃ g' out,
      mboot_data 3 (store_map 0x1000 small_region_map) two_entry_mbd 0x150000 globals.init =
          some g' ∧
        g'.end_memory = 0x110000 ∧ g'.end_memory < 0x150000 ∧
        kernel_main 32 0x100000 0x150000 g' (fun _ => 0) (fun _ => 0) =
          some (out ++ [call.setup_paging 0x150000 0x100000 0x150000], 0x150000) := by
  obtain ⟨out, h⟩ := kernel_main_returns 32 (by decide) 0x100000 0x150000
    { end_kernel := 0x150000, end_memory := 0x110000, first_frame := 0x150000 }
    (fun _ => 0) (fun _ => 0)
  exact ⟨_, out, by decide, by decide, by decide, h⟩

/-- Claim C3 (as the code has it).  Containment of the kernel image in the selected region is
not checked and nothing is reported: whenever `mboot_data` has returned, also with `end_memory`
below the kernel end address, `kernel_main` makes exactly the console calls of
`boot_console_report` (banner, test line, 27976, kernel size; none of them depends on
`end_memory`), then calls `setup_paging(first_frame, &_start_kernel, &_end_kernel)` with the
cursor `mboot_data` set, and returns that cursor. -/
theorem kernel_not_contained_unchecked (fuel fuel' : Nat) (mem : memory) (mbd : multiboot_info)
    (start_kernel end_kernel : Nat) (g g' : globals) (str fstring : Nat → Int)
    (hscan : mboot_data fuel mem mbd end_kernel g = some g')
    (hbelow : g'.end_memory < wrap_u32 end_kernel) (hfuel' : 32 ≤ fuel') :
    kernel_main fuel' start_kernel end_kernel g' str fstring =
      some (boot_console_report start_kernel end_kernel ++
          [call.setup_paging (wrap_u32 end_kernel) start_kernel end_kernel],
        wrap_u32 end_kernel) := by
  have _ := hbelow
  have hff := (mboot_data_first_frame fuel mem mbd end_kernel g g' hscan).1
  rw [kernel_main_calls fuel' hfuel' start_kernel end_kernel g' str fstring, hff,
    wrap_u32_of_lt _ (wrap_u32_lt _)]

/-- Witness for claim C3: the map whose usable region ends at `0x110000`, with the kernel
image ending at `0x150000`. -/
theorem kernel_not_contained_unchecked_witness :
    mboot_data 3 (store_map 0x1000 small_region_map) two_entry_mbd 0x150000 globals.init =
        some { end_kernel := 0x150000, end_memory := 0x110000, first_frame := 0x150000 } ∧
      (0x110000 : Nat) < wrap_u32 0x150000 ∧
      kernel_main 32 0x100000 0x150000
          { end_kernel := 0x150000, end_memory := 0x110000, first_frame := 0x150000 }
          (fun _ => 0) (fun _ => 0) =
        some (boot_console_report 0x100000 0x150000 ++
            [call.setup_paging (wrap_u32 0x150000) 0x100000 0x150000],
          wrap_u32 0x150000) :=
  ⟨by decide, by decide,
    kernel_not_contained_unchecked 3 32 (store_map 0x1000 small_region_map) two_entry_mbd
      0x100000 0x150000 globals.init
      { end_kernel := 0x150000, end_memory := 0x110000, first_frame := 0x150000 }
      (fun _ => 0) (fun _ => 0) (by decide) (by decide) (by decide)⟩

/-- Claim C4 (fails on the code): for the kernel end address `0x150001` the cursor is
`0x150001`, not the next multiple of 4096 (`0x151000`). -/
theorem first_frame_not_rounded :
    (mboot_data 3 (store_map 0x1000 scenario_map) two_entry_mbd 0x150001 globals.init).map
        (fun g' => g'.first_frame) = some 0x150001 ∧
      round_up_4k 0x150001 = 0x151000 ∧ (0x150001 : Nat) ≠ round_up_4k 0x150001 := by
  decide

/-- Claim C4 (as the code has it).  For every 32-bit kernel end address `e` and every
well-formed boot memory map, `mboot_data` returns with `first_frame = e`, no rounding applied,
and `kernel_main` passes exactly `e` to `setup_paging` and returns it; `e` is the kernel end
rounded up to 4096 when `e` is already 4 KiB aligned. -/
theorem first_frame_is_kernel_end (mem : memory) (mbd : multiboot_info)
    (es : List temp_multiboot_memory_map) (start_kernel end_kernel : Nat) (g : globals)
    (str fstring : Nat → Int) (fuel fuel' : Nat)
    (hmap : well_formed_map mem mbd es) (he : end_kernel < 4294967296)
    (hfuel : es.length < fuel) (hfuel' : 32 ≤ fuel') :
    ∃ g' out, mboot_data fuel mem mbd end_kernel g = some g' ∧
      g'.first_frame = end_kernel ∧
      kernel_main fuel' start_kernel end_kernel g' str fstring =
        some (out ++ [call.setup_paging end_kernel start_kernel end_kernel], end_kernel) ∧
      (end_kernel % 4096 = 0 → g'.first_frame = round_up_4k end_kernel) := by
  have hs := scan_while_well_formed mem mbd es hmap fuel hfuel
  have hok := scan_while_selected_ok mem mbd fuel _ _ hs (scan_init_selected_ok mem mbd)
  obtain ⟨g', hg', _, hff, _, _⟩ := mboot_data_of_scan fuel mem mbd end_kernel g _ hs hok
  rw [wrap_u32_of_lt _ he] at hff
  obtain ⟨out, hout⟩ := kernel_main_returns fuel' hfuel' start_kernel end_kernel g' str fstring
  refine ⟨g', out, hg', hff, ?_, ?_⟩
  · rw [hout, hff, wrap_u32_of_lt _ he]
  · intro hal
    rw [hff]
    unfold round_up_4k
    omega

/-- Witness for claim C4: the scenario map with the kernel ending at `0x150000`. -/
theorem first_frame_is_kernel_end_witness :
    ∃ g' out,
      mboot_data 3 (store_map 0x1000 scenario_map) two_entry_mbd 0x150000 globals.init =
          some g' ∧
        g'.first_frame = 0x150000 ∧
        kernel_main 32 0x100000 0x150000 g' (fun _ => 0) (fun _ => 0) =
          some (out ++ [call.setup_paging 0x150000 0x100000 0x150000], 0x150000) ∧
        (0x150000 % 4096 = 0 → g'.first_frame = round_up_4k 0x150000) :=
  first_frame_is_kernel_end (store_map 0x1000 scenario_map) two_entry_mbd scenario_map
    0x100000 0x150000 globals.init (fun _ => 0) (fun _ => 0) 3 32
    (by decide) (by decide) (by decide) (by decide)

/-- Claim C5 (fails on the code): for the selected region with base `0x100000` and length
`0xFFF00000` the sum is `2^32`; `end_memory` becomes `0`, below the base, not `0xFFFFFFFF`. -/
theorem end_memory_not_saturated :
    scan_while (store_map 0x1000 top_region_map) two_entry_mbd 3 (scan_init two_entry_mbd) =
        some { entry := 0x1030, maxentry := some 0x1018, maxlength := 0xFFF00000 } ∧
      entry_at (store_map 0x1000 top_region_map) 0x1018 = mk_entry 1 0x100000 0xFFF00000 ∧
      (mboot_data 3 (store_map 0x1000 top_region_map) two_entry_mbd 0x150000 globals.init).map
        (fun g' => g'.end_memory) = some 0 ∧
      (0 : Nat) ≠ 0xFFFFFFFF ∧ (0 : Nat) < 0x100000 := by
  decide

/-- Claim C5 (as the code has it).  On every well-formed boot memory map the scan returns, and
when it has selected an entry with base `b` and length `l` (low words), `end_memory` is
`(b + l) mod 2^32`: equal to `b + l` when `b + l < 2^32`, and wrapped around, below `b`,
instead of saturated otherwise. -/
theorem end_memory_wraps (mem : memory) (mbd : multiboot_info)
    (es : List temp_multiboot_memory_map) (end_kernel : Nat) (g : globals) (fuel : Nat)
    (hmap : well_formed_map mem mbd es) (hfuel : es.length < fuel) :
    ∃ s g', scan_while mem mbd fuel (scan_init mbd) = some s ∧
      mboot_data fuel mem mbd end_kernel g = some g' ∧
      (0 < s.maxlength → ∃ p, s.maxentry = some p ∧
        g'.end_memory =
          ((entry_at mem p).base_addr_low + (entry_at mem p).length_low) % 4294967296 ∧
        ((entry_at mem p).base_addr_low + (entry_at mem p).length_low < 4294967296 →
          g'.end_memory = (entry_at mem p).base_addr_low + (entry_at mem p).length_low) ∧
        (4294967296 ≤ (entry_at mem p).base_addr_low + (entry_at mem p).length_low →
          g'.end_memory + 4294967296 =
              (entry_at mem p).base_addr_low + (entry_at mem p).length_low ∧
            g'.end_memory < (entry_at mem p).base_addr_low)) := by
  have hs := scan_while_well_formed mem mbd es hmap fuel hfuel
  have hok := scan_while_selected_ok mem mbd fuel _ _ hs (scan_init_selected_ok mem mbd)
  obtain ⟨g', hg', _, _, _, hsel⟩ := mboot_data_of_scan fuel mem mbd end_kernel g _ hs hok
  refine ⟨_, g', hs, hg', fun hpos => ?_⟩
  obtain ⟨p, hp, _, _, hend⟩ := hsel hpos
  have hb : (entry_at mem p).base_addr_low < 4294967296 := wrap_u32_lt _
  have hl : (entry_at mem p).length_low < 4294967296 := wrap_u32_lt _
  refine ⟨p, hp, hend, fun hsmall => ?_, fun hbig => ?_⟩
  · rw [hend]; exact Nat.mod_eq_of_lt hsmall
  · rw [hend]; omega

/-- Witness for claim C5: the scenario map, whose selected region ends at `0x7FE0000`. -/
theorem end_memory_wraps_witness :
    ∃ s g',
      scan_while (store_map 0x1000 scenario_map) two_entry_mbd 3 (scan_init two_entry_mbd) =
          some s ∧
        mboot_data 3 (store_map 0x1000 scenario_map) two_entry_mbd 0x150000 globals.init =
          some g' ∧
        (0 < s.maxlength → ∃ p, s.maxentry = some p ∧
          g'.end_memory =
            ((entry_at (store_map 0x1000 scenario_map) p).base_addr_low +
              (entry_at (store_map 0x1000 scenario_map) p).length_low) % 4294967296 ∧
          ((entry_at (store_map 0x1000 scenario_map) p).base_addr_low +
              (entry_at (store_map 0x1000 scenario_map) p).length_low < 4294967296 →
            g'.end_memory =
              (entry_at (store_map 0x1000 scenario_map) p).base_addr_low +
                (entry_at (store_map 0x1000 scenario_map) p).length_low) ∧
          (4294967296 ≤ (entry_at (store_map 0x1000 scenario_map) p).base_addr_low +
              (entry_at (store_map 0x1000 scenario_map) p).length_low →
            g'.end_memory + 4294967296 =
                (entry_at (store_map 0x1000 scenario_map) p).base_addr_low +
                  (entry_at (store_map 0x1000 scenario_map) p).length_low ∧
              g'.end_memory < (entry_at (store_map 0x1000 scenario_map) p).base_addr_low)) :=
  end_memory_wraps (store_map 0x1000 scenario_map) two_entry_mbd scenario_map 0x150000
    globals.init 3 (by decide) (by decide)

/-- Whenever the scan ends with a positive `maxlength`, `maxentry` points at an entry whose
type is 1 and whose low length word is not zero. -/
theorem selected_entry_is_usable (mem : memory) (mbd : multiboot_info) (fuel : Nat)
    (s : scan_state) (hs : scan_while mem mbd fuel (scan_init mbd) = some s)
    (hpos : 0 < s.maxlength) :
    ∃ p, s.maxentry = some p ∧ (entry_at mem p).type = 1 ∧ (entry_at mem p).length_low ≠ 0 := by
  obtain ⟨p, hp, ht, hl⟩ :=
    scan_while_selected_ok mem mbd fuel _ _ hs (scan_init_selected_ok mem mbd) hpos
  exact ⟨p, hp, ht, by omega⟩

/-- The two maps of the witness evaluated: with and without the malformed record the scanner
selects the region of length `0x7EE0000` and sets `end_memory = 0x7FE0000`. -/
theorem malformed_middle_map_selection :
    mboot_data 3 (store_map 0x1000 scenario_map) two_entry_mbd 0x150000 globals.init =
        some { end_kernel := 0x150000, end_memory := 0x7FE0000, first_frame := 0x150000 } ∧
      scan_while (store_map 0x1000 malformed_middle_map) three_entry_mbd 4
        (scan_init three_entry_mbd) =
        some { entry := 0x1048, maxentry := some 0x1030, maxlength := 0x7EE0000 } ∧
      mboot_data 4 (store_map 0x1000 malformed_middle_map) three_entry_mbd 0x150000
        globals.init =
        some { end_kernel := 0x150000, end_memory := 0x7FE0000, first_frame := 0x150000 } := by
  decide

/-! ## The claims about `page_directory_entry` -/

/-- The declared fields cover bits 0 to 30 only: decoding and re-encoding clears bit 31. -/
theorem encode_decode (i : Nat) :
    page_directory_entry.encode (page_directory_entry.decode i) = i % 2147483648 := by
  unfold page_directory_entry.encode page_directory_entry.decode
  simp only
  omega

/-- The address printed by `remap_VGA` consists of bits 11 to 30 of the entry. -/
theorem decoded_address_eq (i : Nat) :
    decoded_address i = i % 2147483648 / 2048 * 2048 := by
  unfold decoded_address page_directory_entry.decode
  simp only [Nat.shiftLeft_eq]
  omega

/-- Claim C6 (fails on the code): the declared widths 1,1,1,1,1,1,1,1,1,2,20 add up to 31
bits, so the entry `0x80000003` decodes to `P = 1`, `R = 1` and zero elsewhere, and
re-encoding those fields gives `0x00000003`. -/
theorem encode_decode_loses_bit_31 :
    page_directory_entry.decode 0x80000003 =
        { P := 1, R := 1, U := 0, W := 0, D := 0, A := 0, zero := 0, S := 0, G := 0,
          avail := 0, addr := 0 } ∧
      page_directory_entry.encode (page_directory_entry.decode 0x80000003) = 0x00000003 ∧
      (0x00000003 : Nat) ≠ 0x80000003 := by
  decide

/-- Claim C7 (fails on the code): `addr` holds bits 30:11 of the entry, so for the present
entry `0x80000003` (frame `0x80000000`) the decoded address is `0`, and for the present entry
`0x00101803` (frame `0x00101000`, available bit 11 set) it is `0x00101800`. -/
theorem decoded_address_misses_frame :
    (page_directory_entry.decode 0x80000003).P = 1 ∧
      decoded_address 0x80000003 = 0 ∧ 0x80000003 &&& 0xFFFFF000 = 0x80000000 ∧
      (page_directory_entry.decode 0x00101803).P = 1 ∧
      decoded_address 0x00101803 = 0x00101800 ∧ 0x00101803 &&& 0xFFFFF000 = 0x00101000 := by
  decide


/-! ## The claim about `remap_VGA` -/

/-- A dump loop returns when every present entry it visits decodes to an address below
`0x10000000`, the largest the hexadecimal `itoa` call can format. -/
theorem dump_while_returns (fuel : Nat) (hf : 32 ≤ fuel) (table : Nat → Nat)
    (fstring : Nat → Int) :
    ∀ (n i : Nat) (acc : (Nat → Int) × List call), i + n ≤ 1024 →
      (∀ j, i ≤ j → j < i + n → (page_directory_entry.decode (table j)).P = 1 →
        decoded_address (table j) < 268435456) →
      ∃ r, dump_while fuel table fstring i n acc = some r := by
  intro n
  induction n with
  | zero => intro i acc _ _; exact ⟨acc, rfl⟩
  | succ n ih =>
    intro i acc hi hsmall
    obtain ⟨str, out⟩ := acc
    rw [dump_while]
    by_cases hP : (page_directory_entry.decode (table i)).P = 1
    · rw [if_pos hP]
      obtain ⟨r1, h1⟩ := itoa_returns 10 i 4 (by decide) (by decide) (by norm_num; omega)
        (by decide) str fstring fuel (by omega)
      have ha := hsmall i (le_refl _) (by omega) hP
      unfold decoded_address at ha
      obtain ⟨r2, h2⟩ := itoa_returns 16 ((page_directory_entry.decode (table i)).addr <<< 11) 7
        (by decide) (by decide) (by norm_num; exact ha) (by decide) r1 fstring fuel (by omega)
      rw [← wrap_int_of_small i (by omega)] at h1
      rw [← wrap_int_of_small _ (by omega)] at h2
      simp only [Nat.cast_ofNat] at h1 h2
      simp only [h1, h2]
      exact ih (i + 1) _ (by omega) (fun j h1 h2 => hsmall j (by omega) (by omega))
    · rw [if_neg hP]
      exact ih (i + 1) _ (by omega) (fun j h1 h2 => hsmall j (by omega) (by omega))

/-- The paging structures `remap_VGA` leaves behind, whenever it returns. -/
theorem remap_VGA_effect (fuel : Nat) (st : paging_state) (vga : Nat) (str fstring : Nat → Int)
    (r : paging_state × List call) (h : remap_VGA fuel st vga str fstring = some r) :
    r.1.page_directory = Function.update st.page_directory 0 2 ∧
      r.1.page_table = st.page_table := by
  unfold remap_VGA at h
  simp only [bind, Option.bind_eq_some] at h
  obtain ⟨_, _, _, _, _, _, _, _, h⟩ := h
  cases h
  exact ⟨rfl, rfl⟩

/-- The function `remap_VGA` returns when every present entry it dumps decodes to an address
below `0x10000000`. -/
theorem remap_VGA_returns (fuel : Nat) (hf : 32 ≤ fuel) (st : paging_state) (vga : Nat)
    (str fstring : Nat → Int)
    (hdir : ∀ j, j < 1024 → j ≠ 0 → (page_directory_entry.decode (st.page_directory j)).P = 1 →
      decoded_address (st.page_directory j) < 268435456)
    (htab : ∀ j, j < 1024 → (page_directory_entry.decode (st.page_table j)).P = 1 →
      decoded_address (st.page_table j) < 268435456) :
    ∃ r, remap_VGA fuel st vga str fstring = some r := by
  have hv : vga % 65536 < 65536 := Nat.mod_lt _ (by decide)
  obtain ⟨r1, h1⟩ := itoa_returns 2 (vga % 65536) 16 (by decide) (by decide)
    (by norm_num; exact hv) (by decide) str fstring fuel (by omega)
  obtain ⟨r2, h2⟩ := itoa_returns 16 0xB8000 5 (by decide) (by decide) (by decide) (by decide)
    r1 fstring fuel (by omega)
  rw [← wrap_int_of_small (vga % 65536) (by omega)] at h1
  rw [← wrap_int_of_small 0xB8000 (by decide)] at h2
  simp only [Nat.cast_ofNat] at h1 h2
  have hdir' : ∀ j, 0 ≤ j → j < 0 + 1024 →
      (page_directory_entry.decode (Function.update st.page_directory 0 2 j)).P = 1 →
      decoded_address (Function.update st.page_directory 0 2 j) < 268435456 := by
    intro j _ hj hP
    by_cases hj0 : j = 0
    · subst hj0
      rw [Function.update_same] at hP
      exact absurd hP (by decide)
    · rw [Function.update_noteq hj0] at hP ⊢
      exact hdir j (by omega) hj0 hP
  obtain ⟨⟨s3, o3⟩, h3⟩ := dump_while_returns fuel hf (Function.update st.page_directory 0 2)
    fstring 1024 0
    (r2, kernel_error_println (lit "Paging complete") ++ kernel_println (lit "VGA: ") ++
      kernel_println (c_string 33 r1) ++ kernel_println (lit "PD2: ") ++
      kernel_println (c_string 33 r2)) (by decide) hdir'
  obtain ⟨⟨s4, o4⟩, h4⟩ := dump_while_returns fuel hf st.page_table fstring 1024 0
    (s3, o3 ++ kernel_print (lit "Page Tables: ")) (by decide)
    (fun j _ hj hP => htab j (by omega) hP)
  unfold remap_VGA
  simp only [bind, Option.bind, h1, h2, h3, h4]
  exact ⟨_, rfl⟩


/-- In `boot_paging_state` every present entry decodes to an address below `0x10000000`. -/
theorem boot_paging_state_small :
    (∀ j, j < 1024 → j ≠ 0 →
      (page_directory_entry.decode (boot_paging_state.page_directory j)).P = 1 →
      decoded_address (boot_paging_state.page_directory j) < 268435456) ∧
    (∀ j, j < 1024 → (page_directory_entry.decode (boot_paging_state.page_table j)).P = 1 →
      decoded_address (boot_paging_state.page_table j) < 268435456) := by
  constructor
  · intro j _ hj0 hP
    simp only [boot_paging_state, if_neg hj0] at hP
    exact absurd hP (by decide)
  · intro j _ hP
    simp only [boot_paging_state] at hP ⊢
    by_cases hj : j < 3
    · rw [if_pos hj, decoded_address_eq]
      omega
    · rw [if_neg hj] at hP
      exact absurd hP (by decide)

/-- Claim C8 (fails on the code): in a state whose directory entry 0 is present (`0x00101003`),
`remap_VGA` returns with directory entry 0 holding `0x00000002`, its present bit cleared. -/
theorem remap_VGA_clears_entry_0 :
    (page_directory_entry.decode (boot_paging_state.page_directory 0)).P = 1 ∧
    ∃ r, remap_VGA 32 boot_paging_state 0x0F20 (fun _ => 0) (fun _ => 0) = some r ∧
      r.1.page_directory 0 = 2 ∧ (page_directory_entry.decode (r.1.page_directory 0)).P = 0 ∧
      r.1.page_directory 0 ≠ boot_paging_state.page_directory 0 := by
  refine ⟨by decide, ?_⟩
  obtain ⟨r, hr⟩ := remap_VGA_returns 32 (by decide) boot_paging_state 0x0F20 (fun _ => 0)
    (fun _ => 0) boot_paging_state_small.1 boot_paging_state_small.2
  have h0 : r.1.page_directory 0 = 2 := by
    rw [(remap_VGA_effect _ _ _ _ _ r hr).1, Function.update_same]
  refine ⟨r, hr, h0, ?_, ?_⟩
  · rw [h0]; decide
  · rw [h0]; decide

/-- Claim C8 (as the code has it).  The function `remap_VGA` writes one entry: whenever it
returns, directory entry 0 holds `0x00000002` (present bit clear), every other directory
entry and every table entry has the value it had before the call; and it does return when
every present entry it dumps decodes to an address below `0x10000000`. -/
theorem remap_VGA_writes_only_entry_0 (fuel : Nat) (st : paging_state) (vga : Nat)
    (str fstring : Nat → Int) :
    (∀ r, remap_VGA fuel st vga str fstring = some r →
      r.1.page_directory 0 = 2 ∧ (page_directory_entry.decode (r.1.page_directory 0)).P = 0 ∧
      (∀ i, i ≠ 0 → r.1.page_directory i = st.page_directory i) ∧
      (∀ i, r.1.page_table i = st.page_table i)) ∧
    (32 ≤ fuel →
      (∀ j, j < 1024 → j ≠ 0 → (page_directory_entry.decode (st.page_directory j)).P = 1 →
        decoded_address (st.page_directory j) < 268435456) →
      (∀ j, j < 1024 → (page_directory_entry.decode (st.page_table j)).P = 1 →
        decoded_address (st.page_table j) < 268435456) →
      ∃ r, remap_VGA fuel st vga str fstring = some r) := by
  constructor
  · intro r hr
    obtain ⟨hd, ht⟩ := remap_VGA_effect fuel st vga str fstring r hr
    have h0 : r.1.page_directory 0 = 2 := by rw [hd, Function.update_same]
    refine ⟨h0, by rw [h0]; decide, fun i hi => ?_, fun i => by rw [ht]⟩
    rw [hd, Function.update_noteq hi]
  · intro hf hdir htab
    exact remap_VGA_returns fuel hf st vga str fstring hdir htab

/-- Witness for claim C8: the state `boot_paging_state`. -/
theorem remap_VGA_writes_only_entry_0_witness :
    ∃ r, remap_VGA 32 boot_paging_state 0x0F20 (fun _ => 0) (fun _ => 0) = some r ∧
      r.1.page_directory 0 = 2 ∧ (page_directory_entry.decode (r.1.page_directory 0)).P = 0 ∧
      (∀ i, i ≠ 0 → r.1.page_directory i = boot_paging_state.page_directory i) ∧
      (∀ i, r.1.page_table i = boot_paging_state.page_table i) := by
  have T := remap_VGA_writes_only_entry_0 32 boot_paging_state 0x0F20 (fun _ => 0) (fun _ => 0)
  obtain ⟨r, hr⟩ := T.2 (by decide) boot_paging_state_small.1 boot_paging_state_small.2
  exact ⟨r, hr, T.1 r hr⟩

end DomOS
